import Mathlib

/-!
Verification development for the chat-gpz repository.

The definitions below are a shallow embedding, in Lean 4, of the parts of the
repository that the verified properties talk about:

* the tool registry and the nine tool executors (`src/lib/tools/*`),
* the text tool-call extractor `parseTextToolCalls` and the streaming
  orchestration loop (`src/app/api/chat/route.ts` and the sibling revision of
  the same route that uses a 5-iteration cap with forced finalization),
* the title-cleaning pipeline (`src/app/api/chat/title/route.ts`).

Platform services (the model runtime, `fetch`, the filesystem, the JavaScript
engine used by the calculator / code-execution tools, locale formatting) are
modelled as explicit oracle parameters collected in an environment record, so
every definition stays executable and every external effect is visible in the
returned trace.  JavaScript strings are modelled as Lean `String`s (lists of
characters); the ASCII whitespace set stands in for the JS `\s` class, and
JavaScript numbers are modelled by exact rationals extended with signed
infinities and NaN (floating-point rounding is outside the model; every claim
below is evaluated inside the exactly-representable fragment).
-/

/-! ## Basic JavaScript-flavoured character and string utilities -/

/-- ASCII model of the JavaScript `\s` whitespace class (used by `trim`,
`split(/\s+/)` and the calculator's allow-list). -/
def jsIsWs (c : Char) : Bool :=
  c = ' ' || c = '\t' || c = '\n' || c = '\r' || c = '\x0b' || c = '\x0c'

/-- Model of the JavaScript `\w` class: ASCII letters, digits and underscore. -/
def jsIsWordChar (c : Char) : Bool :=
  ('a' ≤ c && c ≤ 'z') || ('A' ≤ c && c ≤ 'Z') || ('0' ≤ c && c ≤ '9') || c = '_'

/-- Decimal digit test (ASCII). -/
def jsIsDigit (c : Char) : Bool := '0' ≤ c && c ≤ '9'

/-- ASCII letter test (the lookahead class `[a-z]` under the `i` flag). -/
def jsIsAsciiLetter (c : Char) : Bool :=
  ('a' ≤ c && c ≤ 'z') || ('A' ≤ c && c ≤ 'Z')

/-- Lower-case an ASCII character (for case-insensitive regex matching). -/
def asciiLower (c : Char) : Char :=
  if 'A' ≤ c && c ≤ 'Z' then Char.ofNat (c.toNat + 32) else c

/-- Case-insensitive comparison of two characters (ASCII). -/
def charCaseEq (a b : Char) : Bool := asciiLower a = asciiLower b

/-- Test whether `pat` is a prefix of `cs`, case-sensitively. -/
def listIsPrefixOf : List Char → List Char → Bool
  | [], _ => true
  | _ :: _, [] => false
  | p :: ps, c :: cs => p = c && listIsPrefixOf ps cs

/-- Test whether `pat` is a prefix of `cs`, ASCII-case-insensitively. -/
def listIsPrefixOfCI : List Char → List Char → Bool
  | [], _ => true
  | _ :: _, [] => false
  | p :: ps, c :: cs => charCaseEq p c && listIsPrefixOfCI ps cs

/-- Drop `n` characters from the front of a list (plain `List.drop`, named for
readability at call sites that skip over a matched literal). -/
def listSkip (n : Nat) (cs : List Char) : List Char := cs.drop n

/-- Find the index of the first position at which `pat` occurs in `cs`
(case-sensitively); `none` when there is no occurrence. -/
def findSub (pat : List Char) : List Char → Option Nat
  | [] => if listIsPrefixOf pat [] then some 0 else none
  | c :: cs =>
    if listIsPrefixOf pat (c :: cs) then some 0
    else (findSub pat cs).map (· + 1)

/-- JavaScript `String.prototype.trim` on a character list: remove leading and
trailing whitespace. -/
def jsTrimL (cs : List Char) : List Char :=
  ((cs.dropWhile (jsIsWs ·)).reverse.dropWhile (jsIsWs ·)).reverse

/-- JavaScript `trim` on strings. -/
def jsTrim (s : String) : String := String.mk (jsTrimL s.toList)

/-- JavaScript `String.prototype.startsWith` (character-list prefix test;
the library's byte-based `String.startsWith` does not kernel-reduce). -/
def jsStartsWith (s pre : String) : Bool := listIsPrefixOf pre.toList s.toList

/-- Replace every (non-overlapping, leftmost) occurrence of the literal
pattern `pat` by `rep`, scanning left to right as the JavaScript global
`String.prototype.replace` with a literal regex does.  `fuel` bounds the
recursion; callers pass the length of the subject. -/
def replaceAllL (pat rep : List Char) : Nat → List Char → List Char
  | _, [] => []
  | 0, cs => cs
  | fuel + 1, c :: cs =>
    if pat ≠ [] && listIsPrefixOf pat (c :: cs) then
      rep ++ replaceAllL pat rep fuel (listSkip (pat.length - 1) cs)
    else
      c :: replaceAllL pat rep fuel cs

/-- Global literal replacement on strings. -/
def jsReplaceAll (pat rep s : String) : String :=
  String.mk (replaceAllL pat.toList rep.toList s.length s.toList)

/-- Replace the first occurrence only (JavaScript `replace` without `g`). -/
def replaceFirstL (pat rep : List Char) : List Char → List Char
  | [] => []
  | c :: cs =>
    if pat ≠ [] && listIsPrefixOf pat (c :: cs) then
      rep ++ listSkip (pat.length - 1) cs
    else
      c :: replaceFirstL pat rep cs

/-- First-occurrence replacement on strings. -/
def jsReplaceFirst (pat rep s : String) : String :=
  String.mk (replaceFirstL pat.toList rep.toList s.toList)

/-! ## Exact rationals for JavaScript numbers

JavaScript numbers are modelled by exact rationals kept in normalized form
(`den > 0`, `gcd (num, den) = 1`); only kernel-accelerated `Int`/`Nat`
primitives are used so that every concrete computation evaluates by
`decide`.  Floating-point rounding is outside the model. -/

/-- Normalized rational number (the denominator is kept positive and the
fraction reduced by construction in `jsRatMk`). -/
structure JsRat where
  num : Int
  den : Int
  deriving DecidableEq

/-- Build a reduced rational from a numerator and a nonzero denominator. -/
def jsRatMk (n d : Int) : JsRat :=
  let s : Int := if d < 0 then -1 else 1
  let n' := s * n
  let d' := s * d
  let g : Int := (Int.gcd n' d' : Int)
  if g = 0 then ⟨0, 1⟩ else ⟨Int.ediv n' g, Int.ediv d' g⟩

/-- Embed an integer. -/
def jsRatOfInt (n : Int) : JsRat := ⟨n, 1⟩

/-- Rational addition. -/
def jsRatAdd (a b : JsRat) : JsRat := jsRatMk (a.num * b.den + b.num * a.den) (a.den * b.den)

/-- Rational subtraction. -/
def jsRatSub (a b : JsRat) : JsRat := jsRatMk (a.num * b.den - b.num * a.den) (a.den * b.den)

/-- Rational multiplication. -/
def jsRatMul (a b : JsRat) : JsRat := jsRatMk (a.num * b.num) (a.den * b.den)

/-- Rational negation. -/
def jsRatNeg (a : JsRat) : JsRat := ⟨-a.num, a.den⟩

/-- Strict order by cross-multiplication (both denominators positive). -/
def jsRatLt (a b : JsRat) : Bool := a.num * b.den < b.num * a.den

/-- Zero test on the normalized representation. -/
def jsRatIsZero (a : JsRat) : Bool := a.num = 0

/-- Power by a natural exponent. -/
def jsRatPowNat (a : JsRat) : Nat → JsRat
  | 0 => ⟨1, 1⟩
  | n + 1 => jsRatMul a (jsRatPowNat a n)

/-- Scale by a (possibly negative) power of ten, for scientific literals. -/
def jsRatScale10 (a : JsRat) (e : Int) : JsRat :=
  if e < 0 then jsRatMk a.num (a.den * ((10 : Int) ^ e.natAbs))
  else jsRatMk (a.num * ((10 : Int) ^ e.natAbs)) a.den

/-- Floor to an integer (the denominator is positive, so Euclidean division
is the floor). -/
def jsRatFloor (a : JsRat) : Int := Int.ediv a.num a.den

/-- Ceiling to an integer. -/
def jsRatCeil (a : JsRat) : Int := -(Int.ediv (-a.num) a.den)

/-! ## JSON values (`JSON.parse` / `JSON.stringify` model) -/

/-- JSON value as produced by `JSON.parse`.  Numbers are exact rationals
(the floating-point rounding of the JS engine is outside the model). -/
inductive Json where
  | null
  | bool (b : Bool)
  | num (q : JsRat)
  | str (s : String)
  | arr (elems : List Json)
  | obj (fields : List (String × Json))

/-- Property access `v.k` on a parsed JSON value: `none` models the JS value
`undefined` (missing field, or access on a non-object).  When `JSON.parse`
sees a duplicate key the last occurrence wins, hence the reversed lookup. -/
def Json.getField : Json → String → Option Json
  | .obj fs, k => fs.reverse.lookup k
  | _, _ => none

/-- JavaScript truthiness of a JSON value. -/
def jsTruthy : Json → Bool
  | .null => false
  | .bool b => b
  | .num q => !(jsRatIsZero q)
  | .str s => !(s = "")
  | .arr _ => true
  | .obj _ => true

/-- Truthiness lifted to possibly-`undefined` values. -/
def jsTruthyOpt : Option Json → Bool
  | none => false
  | some v => jsTruthy v

/-- JavaScript `a || b` on possibly-`undefined` JSON values. -/
def jsOr (a : Option Json) (b : Json) : Json :=
  match a with
  | some v => if jsTruthy v then v else b
  | none => b

/-- JSON insignificant whitespace. -/
def skipWsJson (cs : List Char) : List Char :=
  cs.dropWhile (fun c => c = ' ' || c = '\t' || c = '\n' || c = '\r')

/-- Hexadecimal digit value. -/
def hexVal (c : Char) : Option Nat :=
  let n := c.toNat
  if 48 ≤ n && n ≤ 57 then some (n - 48)
  else if 97 ≤ n && n ≤ 102 then some (n - 87)
  else if 65 ≤ n && n ≤ 70 then some (n - 55)
  else none

/-- Parse the body of a JSON string literal (the opening quote has already
been consumed); returns the decoded characters and the rest of the input
after the closing quote. -/
def parseJsonStr : Nat → List Char → Option (List Char × List Char)
  | 0, _ => none
  | _, [] => none
  | fuel + 1, c :: cs =>
    if c = '"' then some ([], cs)
    else if c = '\\' then
      match cs with
      | [] => none
      | e :: cs' =>
        let cont (d : Char) (rest : List Char) : Option (List Char × List Char) :=
          (parseJsonStr fuel rest).map (fun p => (d :: p.1, p.2))
        if e = '"' then cont '"' cs'
        else if e = '\\' then cont '\\' cs'
        else if e = '/' then cont '/' cs'
        else if e = 'b' then cont '\x08' cs'
        else if e = 'f' then cont '\x0c' cs'
        else if e = 'n' then cont '\n' cs'
        else if e = 'r' then cont '\r' cs'
        else if e = 't' then cont '\t' cs'
        else if e = 'u' then
          match cs' with
          | h1 :: h2 :: h3 :: h4 :: cs'' =>
            match hexVal h1, hexVal h2, hexVal h3, hexVal h4 with
            | some a, some b, some c1, some d1 =>
              cont (Char.ofNat (((a * 16 + b) * 16 + c1) * 16 + d1)) cs''
            | _, _, _, _ => none
          | _ => none
        else none
    else if c.toNat < 32 then none
    else (parseJsonStr fuel cs).map (fun p => (c :: p.1, p.2))

/-- Digits to a natural number. -/
def digitsToNat (ds : List Char) : Nat :=
  ds.foldl (fun acc c => acc * 10 + (c.toNat - '0'.toNat)) 0

/-- Parse a JSON number starting at the head of the input. -/
def parseJsonNum (cs : List Char) : Option (JsRat × List Char) :=
  let (neg, cs1) : Bool × List Char :=
    match cs with
    | '-' :: rest => (true, rest)
    | _ => (false, cs)
  let intDigits := cs1.takeWhile (jsIsDigit ·)
  let cs2 := cs1.drop intDigits.length
  if intDigits = [] then none
  else if intDigits.length > 1 && intDigits.head? = some '0' then none
  else
    let (fracDigits, cs3) : List Char × List Char :=
      match cs2 with
      | '.' :: rest => (rest.takeWhile (jsIsDigit ·), rest.drop (rest.takeWhile (jsIsDigit ·)).length)
      | _ => ([], cs2)
    if cs2.head? = some '.' && fracDigits = [] then none
    else
      let expRes : Option (Int × List Char) :=
        match cs3 with
        | e :: rest =>
          if e = 'e' || e = 'E' then
            let (eneg, rest1) : Bool × List Char :=
              match rest with
              | '+' :: r => (false, r)
              | '-' :: r => (true, r)
              | _ => (false, rest)
            let eds := rest1.takeWhile (jsIsDigit ·)
            if eds = [] then none
            else some ((if eneg then -(digitsToNat eds : Int) else (digitsToNat eds : Int)),
                       rest1.drop eds.length)
          else some (0, cs3)
        | [] => some (0, cs3)
      match expRes with
      | none => none
      | some (ex, rest) =>
        let mantissa : JsRat :=
          jsRatAdd (jsRatOfInt (digitsToNat intDigits : Int))
            (jsRatMk (digitsToNat fracDigits : Int) ((10 : Int) ^ fracDigits.length))
        let value : JsRat :=
          jsRatScale10 (if neg then jsRatNeg mantissa else mantissa) ex
        some (value, rest)

mutual

/-- Parse one JSON value (strict, as `JSON.parse`); returns the value and the
unconsumed input. -/
def parseJsonVal : Nat → List Char → Option (Json × List Char)
  | 0, _ => none
  | fuel + 1, cs =>
    match skipWsJson cs with
    | [] => none
    | c :: rest =>
      if c = 'n' then
        if listIsPrefixOf ['u', 'l', 'l'] rest then some (.null, rest.drop 3) else none
      else if c = 't' then
        if listIsPrefixOf ['r', 'u', 'e'] rest then some (.bool true, rest.drop 3) else none
      else if c = 'f' then
        if listIsPrefixOf ['a', 'l', 's', 'e'] rest then some (.bool false, rest.drop 4) else none
      else if c = '"' then
        (parseJsonStr fuel rest).map (fun p => (.str (String.mk p.1), p.2))
      else if c = '[' then
        match skipWsJson rest with
        | ']' :: rest' => some (.arr [], rest')
        | _ => (parseJsonItems fuel rest).map (fun p => (.arr p.1, p.2))
      else if c = '{' then
        match skipWsJson rest with
        | '}' :: rest' => some (.obj [], rest')
        | _ => (parseJsonFields fuel rest).map (fun p => (.obj p.1, p.2))
      else
        (parseJsonNum (c :: rest)).map (fun p => (.num p.1, p.2))

/-- Parse the (nonempty) element list of a JSON array, up to and including the
closing bracket. -/
def parseJsonItems : Nat → List Char → Option (List Json × List Char)
  | 0, _ => none
  | fuel + 1, cs =>
    match parseJsonVal fuel cs with
    | none => none
    | some (v, rest) =>
      match skipWsJson rest with
      | ',' :: rest' => (parseJsonItems fuel rest').map (fun p => (v :: p.1, p.2))
      | ']' :: rest' => some ([v], rest')
      | _ => none

/-- Parse the (nonempty) field list of a JSON object, up to and including the
closing brace. -/
def parseJsonFields : Nat → List Char → Option (List (String × Json) × List Char)
  | 0, _ => none
  | fuel + 1, cs =>
    match skipWsJson cs with
    | '"' :: rest =>
      match parseJsonStr fuel rest with
      | none => none
      | some (key, rest1) =>
        match skipWsJson rest1 with
        | ':' :: rest2 =>
          match parseJsonVal fuel rest2 with
          | none => none
          | some (v, rest3) =>
            match skipWsJson rest3 with
            | ',' :: rest4 =>
              (parseJsonFields fuel rest4).map (fun p => ((String.mk key, v) :: p.1, p.2))
            | '}' :: rest4 => some ([(String.mk key, v)], rest4)
            | _ => none
        | _ => none
    | _ => none

end

/-- Model of `JSON.parse`: `none` models the thrown `SyntaxError`. -/
def jsonParse (s : String) : Option Json :=
  match parseJsonVal (2 * s.length + 8) s.toList with
  | some (v, rest) => if skipWsJson rest = [] then some v else none
  | none => none

/-- Escape a character sequence for inclusion in a JSON string literal, as
`JSON.stringify` does. -/
def jsonEscape : List Char → List Char
  | [] => []
  | c :: cs =>
    let tail := jsonEscape cs
    if c = '"' then '\\' :: '"' :: tail
    else if c = '\\' then '\\' :: '\\' :: tail
    else if c = '\n' then '\\' :: 'n' :: tail
    else if c = '\r' then '\\' :: 'r' :: tail
    else if c = '\t' then '\\' :: 't' :: tail
    else if c = '\x08' then '\\' :: 'b' :: tail
    else if c = '\x0c' then '\\' :: 'f' :: tail
    else c :: tail

/-- Decimal rendering of a JSON number.  Integers render as in JavaScript;
the fraction form for non-integers is a model artifact (real JS prints the
shortest float form, which this exact-rational model does not track). -/
def jsonNumToString (q : JsRat) : String :=
  if q.den = 1 then toString q.num else toString q.num ++ "/" ++ toString q.den

mutual

/-- Model of `JSON.stringify` (compact form, as used by the orchestration
loop's tool markers and the image tool's result payload). -/
def jsonSerialize : Json → String
  | .null => "null"
  | .bool b => if b then "true" else "false"
  | .num q => jsonNumToString q
  | .str s => "\"" ++ String.mk (jsonEscape s.toList) ++ "\""
  | .arr xs => "[" ++ jsonSerializeItems xs ++ "]"
  | .obj fs => "\x7b" ++ jsonSerializeFields fs ++ "\x7d"

/-- Comma-separated serialization of array elements. -/
def jsonSerializeItems : List Json → String
  | [] => ""
  | [x] => jsonSerialize x
  | x :: y :: xs => jsonSerialize x ++ "," ++ jsonSerializeItems (y :: xs)

/-- Comma-separated serialization of object fields. -/
def jsonSerializeFields : List (String × Json) → String
  | [] => ""
  | [(k, v)] => "\"" ++ String.mk (jsonEscape k.toList) ++ "\":" ++ jsonSerialize v
  | (k, v) :: f :: fs =>
    "\"" ++ String.mk (jsonEscape k.toList) ++ "\":" ++ jsonSerialize v ++ "," ++
      jsonSerializeFields (f :: fs)

end

mutual

/-- JavaScript string conversion of a value, as it appears inside a template
literal: strings unquoted, arrays joined with commas, objects printed as
`[object Object]`. -/
def jsDisplay : Json → String
  | .null => "null"
  | .bool b => if b then "true" else "false"
  | .num q => jsonNumToString q
  | .str s => s
  | .arr xs => jsDisplayItems xs
  | .obj _ => "[object Object]"

/-- Comma join used by JavaScript `Array.prototype.toString`. -/
def jsDisplayItems : List Json → String
  | [] => ""
  | [x] => jsDisplay x
  | x :: y :: xs => jsDisplay x ++ "," ++ jsDisplayItems (y :: xs)

end

/-- Template-literal display of a possibly-`undefined` value. -/
def jsDisplayOpt : Option Json → String
  | none => "undefined"
  | some v => jsDisplay v

example : jsonParse "\x7b\"name\": \"calculator\", \"arguments\": \x7b\"expression\": \"1+1\"\x7d\x7d" =
    some (.obj [("name", .str "calculator"),
                ("arguments", .obj [("expression", .str "1+1")])]) := rfl

example : (jsonParse "[1, 2.5, -3e2, true, null]").map jsonSerialize =
    some "[1,5/2,-300,true,null]" := by decide

example : jsonParse "\x7b\"a\": 1," = none := rfl

example : jsonSerialize (.obj [("expression", .str "1+1")]) =
    "\x7b\"expression\":\"1+1\"\x7d" := rfl

/-! ## Calculator tool (`src/lib/tools/calculator.ts`)

`safeEvaluate` rewrites common math notation, validates the result against a
character allow-list, and hands the string to the JavaScript engine
(`new Function`).  The engine's arithmetic is modelled by `calcEval` below:
an exact evaluator for the JavaScript expression grammar restricted to the
allow-listed characters.  Values are rationals extended with signed
infinities and NaN; computations whose value is irrational (`Math.sqrt(2)`,
`Math.PI`, non-integer exponents, ...) are outside the model and fold into
the same evaluation-failure path as a thrown `SyntaxError`. -/

/-- Case-insensitive global literal replacement (regex with the `gi` flags). -/
def replaceAllCIL (pat rep : List Char) : Nat → List Char → List Char
  | _, [] => []
  | 0, cs => cs
  | fuel + 1, c :: cs =>
    if pat ≠ [] && listIsPrefixOfCI pat (c :: cs) then
      rep ++ replaceAllCIL pat rep fuel (listSkip (pat.length - 1) cs)
    else
      c :: replaceAllCIL pat rep fuel cs

/-- Case-insensitive global replacement on strings. -/
def jsReplaceAllCI (pat rep s : String) : String :=
  String.mk (replaceAllCIL pat.toList rep.toList s.length s.toList)

/-- The `/e(?![a-z])/gi → 'Math.E'` rewrite: an `e` or `E` not followed by an
ASCII letter becomes `Math.E`; scanning resumes after the replacement. -/
def replaceMathE : List Char → List Char
  | [] => []
  | c :: cs =>
    if (c = 'e' || c = 'E') &&
        !(match cs with | d :: _ => jsIsAsciiLetter d | [] => false) then
      'M' :: 'a' :: 't' :: 'h' :: '.' :: 'E' :: replaceMathE cs
    else
      c :: replaceMathE cs

/-- Notation rewriting chain at the top of `safeEvaluate`, in source order. -/
def calcRewrite (s : String) : String :=
  let r := jsReplaceAll "^" "**" s
  let r := jsReplaceAll "sqrt" "Math.sqrt" r
  let r := jsReplaceAll "sin" "Math.sin" r
  let r := jsReplaceAll "cos" "Math.cos" r
  let r := jsReplaceAll "tan" "Math.tan" r
  let r := jsReplaceAll "log" "Math.log" r
  let r := jsReplaceAll "abs" "Math.abs" r
  let r := jsReplaceAll "round" "Math.round" r
  let r := jsReplaceAll "floor" "Math.floor" r
  let r := jsReplaceAll "ceil" "Math.ceil" r
  let r := jsReplaceAllCI "pi" "Math.PI" r
  String.mk (replaceMathE r.toList)

/-- Character class of the allow-list regex
`/^[0-9+\-*\/().%\s,Math.sqrtincoablgEPI]+$/`. -/
def calcAllowedChar (c : Char) : Bool :=
  jsIsDigit c || jsIsWs c ||
    c ∈ ['+', '-', '*', '/', '(', ')', '.', '%', ','] ||
    c ∈ ['M', 'a', 't', 'h', 's', 'q', 'r', 'i', 'n', 'c', 'o', 'b', 'l', 'g', 'E', 'P', 'I']

/-- Allow-list test: the `+` quantifier demands a nonempty subject. -/
def calcAllowed (s : String) : Bool :=
  !(s.toList = []) && s.toList.all calcAllowedChar

/-- JavaScript number: finite rational, signed infinity, or NaN. -/
inductive JsNum where
  | fin (q : JsRat)
  | inf (pos : Bool)
  | nan
  deriving DecidableEq

/-- Finiteness (the `isFinite` check of `safeEvaluate`). -/
def jsNumFinite : JsNum → Bool
  | .fin _ => true
  | _ => false

/-- Sign of a finite value (positive meaning `≥ 0`, for infinity signs). -/
def jsRatNonneg (q : JsRat) : Bool := 0 ≤ q.num

/-- JavaScript addition. -/
def jsNumAdd : JsNum → JsNum → JsNum
  | .fin a, .fin b => .fin (jsRatAdd a b)
  | .fin _, .inf p => .inf p
  | .inf p, .fin _ => .inf p
  | .inf p, .inf q => if p = q then .inf p else .nan
  | _, _ => .nan

/-- JavaScript subtraction. -/
def jsNumSub : JsNum → JsNum → JsNum
  | .fin a, .fin b => .fin (jsRatSub a b)
  | .fin _, .inf p => .inf (!p)
  | .inf p, .fin _ => .inf p
  | .inf p, .inf q => if p = q then .nan else .inf p
  | _, _ => .nan

/-- JavaScript negation. -/
def jsNumNeg : JsNum → JsNum
  | .fin a => .fin (jsRatNeg a)
  | .inf p => .inf (!p)
  | .nan => .nan

/-- JavaScript multiplication. -/
def jsNumMul : JsNum → JsNum → JsNum
  | .fin a, .fin b => .fin (jsRatMul a b)
  | .fin a, .inf p => if jsRatIsZero a then .nan else .inf (p = jsRatNonneg a)
  | .inf p, .fin a => if jsRatIsZero a then .nan else .inf (p = jsRatNonneg a)
  | .inf p, .inf q => .inf (p = q)
  | _, _ => .nan

/-- JavaScript division. -/
def jsNumDiv : JsNum → JsNum → JsNum
  | .fin a, .fin b =>
    if jsRatIsZero b then
      if jsRatIsZero a then .nan else .inf (jsRatNonneg a)
    else .fin (jsRatMk (a.num * b.den) (a.den * b.num))
  | .fin _, .inf _ => .fin ⟨0, 1⟩
  | .inf p, .fin a => .inf (p = jsRatNonneg a)
  | .inf _, .inf _ => .nan
  | _, _ => .nan

/-- Truncation toward zero. -/
def jsRatTrunc (a : JsRat) : Int :=
  if 0 ≤ a.num then jsRatFloor a else jsRatCeil a

/-- JavaScript remainder `%` (sign follows the dividend). -/
def jsNumMod : JsNum → JsNum → JsNum
  | .fin a, .fin b =>
    if jsRatIsZero b then .nan
    else .fin (jsRatSub a (jsRatMul b (jsRatOfInt (jsRatTrunc (jsRatMk (a.num * b.den) (a.den * b.num))))))
  | .fin a, .inf _ => .fin a
  | _, _ => .nan

/-- Absolute value. -/
def jsRatAbs (a : JsRat) : JsRat := if a.num < 0 then jsRatNeg a else a

/-- JavaScript exponentiation `**`.  Only integer exponents (and the special
infinity/NaN rules) are inside the model; a non-integer exponent yields
`none` (value not determined by the exact-rational model). -/
def jsNumPow : JsNum → JsNum → Option JsNum
  | _, .fin ⟨0, 1⟩ => some (.fin ⟨1, 1⟩)
  | .nan, _ => some .nan
  | _, .nan => some .nan
  | a, .inf p =>
    match a with
    | .fin q =>
      if jsRatLt ⟨1, 1⟩ (jsRatAbs q) then some (if p then .inf true else .fin ⟨0, 1⟩)
      else if jsRatLt (jsRatAbs q) ⟨1, 1⟩ then some (if p then .fin ⟨0, 1⟩ else .inf true)
      else some .nan
    | _ => some (if p then .inf true else .fin ⟨0, 1⟩)
  | .inf p, .fin e =>
    if e.den = 1 then
      if 0 < e.num then
        some (.inf (p || e.num % 2 = 0))
      else some (.fin ⟨0, 1⟩)
    else none
  | .fin a, .fin e =>
    if e.den = 1 then
      if 0 ≤ e.num then some (.fin (jsRatPowNat a e.num.natAbs))
      else if jsRatIsZero a then some (.inf true)
      else
        let p := jsRatPowNat a e.num.natAbs
        some (.fin (jsRatMk p.den p.num))
    else none

/-- Fuel-driven Newton iteration for natural square roots (kernel-reducible,
unlike the library's well-founded `Nat.sqrt`). -/
def natSqrtIter : Nat → Nat → Nat → Nat
  | 0, x, _ => x
  | fuel + 1, x, n =>
    let y := (x + n / x) / 2
    if y < x then natSqrtIter fuel y n else x

/-- Integer square root (largest `k` with `k * k ≤ n`). -/
def natSqrtF (n : Nat) : Nat :=
  if n ≤ 1 then n else natSqrtIter (n + 2) n n

/-- `Math.sqrt`: NaN on negatives; exact on rational squares; `none` when the
result is irrational (outside the model). -/
def jsMathSqrt : JsNum → Option JsNum
  | .fin q =>
    if q.num < 0 then some .nan
    else
      let rn := natSqrtF q.num.natAbs
      let rd := natSqrtF q.den.natAbs
      if rn * rn = q.num.natAbs && rd * rd = q.den.natAbs then
        some (.fin ⟨(rn : Int), (rd : Int)⟩)
      else none
  | .inf p => some (if p then .inf true else .nan)
  | .nan => some .nan

/-- `Math.log`: exact only at `1` and the limits; `none` elsewhere. -/
def jsMathLog : JsNum → Option JsNum
  | .fin q =>
    if jsRatIsZero q then some (.inf false)
    else if q.num < 0 then some .nan
    else if q = ⟨1, 1⟩ then some (.fin ⟨0, 1⟩)
    else none
  | .inf p => some (if p then .inf true else .nan)
  | .nan => some .nan

/-- Trigonometric functions: exact only at `0`; NaN at infinities. -/
def jsMathTrig (atZero : JsRat) : JsNum → Option JsNum
  | .fin q => if jsRatIsZero q then some (.fin atZero) else none
  | .inf _ => some .nan
  | .nan => some .nan

/-- `Math.round` (floor of `x + 1/2`). -/
def jsMathRound : JsNum → JsNum
  | .fin q => .fin (jsRatOfInt (jsRatFloor (jsRatAdd q ⟨1, 2⟩)))
  | v => v

/-- `Math.floor`. -/
def jsMathFloor : JsNum → JsNum
  | .fin q => .fin (jsRatOfInt (jsRatFloor q))
  | v => v

/-- `Math.ceil`. -/
def jsMathCeil : JsNum → JsNum
  | .fin q => .fin (jsRatOfInt (jsRatCeil q))
  | v => v

/-- `Math.abs`. -/
def jsMathAbs : JsNum → JsNum
  | .fin q => .fin (jsRatAbs q)
  | .inf _ => .inf true
  | .nan => .nan

/-- Calculator token: a numeric literal, a known `Math.*` name, or a symbol. -/
inductive CalcTok where
  | tnum (q : JsRat)
  | tname (s : String)
  | tsym (s : String)
  deriving DecidableEq

/-- Characters an identifier token may contain (letters and dots). -/
def calcIdentChar (c : Char) : Bool := jsIsAsciiLetter c || c = '.'

/-- Tokenize an allow-listed calculator expression; `none` models a
`SyntaxError` from the engine. -/
def calcLex : Nat → List Char → Option (List CalcTok)
  | 0, _ => none
  | _, [] => some []
  | fuel + 1, c :: cs =>
    if jsIsWs c then calcLex fuel cs
    else if jsIsDigit c || (c = '.' && (match cs with | d :: _ => jsIsDigit d | [] => false)) then
      let ds := (c :: cs).takeWhile (jsIsDigit ·)
      let rest := (c :: cs).drop ds.length
      match rest with
      | '.' :: rest' =>
        let fs := rest'.takeWhile (jsIsDigit ·)
        let rest'' := rest'.drop fs.length
        if ds = [] && fs = [] then none
        else
          (calcLex fuel rest'').map (fun ts =>
            .tnum (jsRatAdd (jsRatOfInt (digitsToNat ds : Int))
              (jsRatMk (digitsToNat fs : Int) ((10 : Int) ^ fs.length))) :: ts)
      | _ =>
        (calcLex fuel rest).map (fun ts => .tnum (jsRatOfInt (digitsToNat ds : Int)) :: ts)
    else if jsIsAsciiLetter c then
      let idc := (c :: cs).takeWhile calcIdentChar
      let rest := (c :: cs).drop idc.length
      (calcLex fuel rest).map (fun ts => .tname (String.mk idc) :: ts)
    else if c = '*' then
      match cs with
      | '*' :: cs' => (calcLex fuel cs').map (fun ts => .tsym "**" :: ts)
      | _ => (calcLex fuel cs).map (fun ts => .tsym "*" :: ts)
    else if c ∈ ['+', '-', '/', '%', '(', ')', ','] then
      (calcLex fuel cs).map (fun ts => .tsym (String.mk [c]) :: ts)
    else none

/-- Apply a known `Math` function name to an argument; unknown names model a
`ReferenceError` (`none`). -/
def calcApplyFn (name : String) (v : JsNum) : Option JsNum :=
  if name = "Math.sqrt" then jsMathSqrt v
  else if name = "Math.sin" then jsMathTrig ⟨0, 1⟩ v
  else if name = "Math.cos" then
    match v with
    | .fin q => if jsRatIsZero q then some (.fin ⟨1, 1⟩) else none
    | .inf _ => some .nan
    | .nan => some .nan
  else if name = "Math.tan" then jsMathTrig ⟨0, 1⟩ v
  else if name = "Math.log" then jsMathLog v
  else if name = "Math.abs" then some (jsMathAbs v)
  else if name = "Math.round" then some (jsMathRound v)
  else if name = "Math.floor" then some (jsMathFloor v)
  else if name = "Math.ceil" then some (jsMathCeil v)
  else none

mutual

/-- Additive level of the JavaScript expression grammar. -/
def calcAdd : Nat → List CalcTok → Option (JsNum × List CalcTok)
  | 0, _ => none
  | fuel + 1, ts =>
    match calcMul fuel ts with
    | none => none
    | some (v, rest) => calcAddLoop fuel v rest

/-- Left-associated chain of `+` / `-`. -/
def calcAddLoop : Nat → JsNum → List CalcTok → Option (JsNum × List CalcTok)
  | 0, _, _ => none
  | fuel + 1, acc, ts =>
    match ts with
    | .tsym "+" :: rest =>
      match calcMul fuel rest with
      | none => none
      | some (v, rest') => calcAddLoop fuel (jsNumAdd acc v) rest'
    | .tsym "-" :: rest =>
      match calcMul fuel rest with
      | none => none
      | some (v, rest') => calcAddLoop fuel (jsNumSub acc v) rest'
    | _ => some (acc, ts)

/-- Multiplicative level (`*`, `/`, `%`). -/
def calcMul : Nat → List CalcTok → Option (JsNum × List CalcTok)
  | 0, _ => none
  | fuel + 1, ts =>
    match calcUnary fuel ts with
    | none => none
    | some (v, rest) => calcMulLoop fuel v rest

/-- Left-associated chain of `*` / `/` / `%`. -/
def calcMulLoop : Nat → JsNum → List CalcTok → Option (JsNum × List CalcTok)
  | 0, _, _ => none
  | fuel + 1, acc, ts =>
    match ts with
    | .tsym "*" :: rest =>
      match calcUnary fuel rest with
      | none => none
      | some (v, rest') => calcMulLoop fuel (jsNumMul acc v) rest'
    | .tsym "/" :: rest =>
      match calcUnary fuel rest with
      | none => none
      | some (v, rest') => calcMulLoop fuel (jsNumDiv acc v) rest'
    | .tsym "%" :: rest =>
      match calcUnary fuel rest with
      | none => none
      | some (v, rest') => calcMulLoop fuel (jsNumMod acc v) rest'
    | _ => some (acc, ts)

/-- Unary level: a sign applies to a whole unary expression, and JavaScript
forbids `**` directly after a unary minus (`-2**2` is a `SyntaxError`). -/
def calcUnary : Nat → List CalcTok → Option (JsNum × List CalcTok)
  | 0, _ => none
  | fuel + 1, ts =>
    match ts with
    | .tsym "-" :: rest => (calcUnary fuel rest).map (fun p => (jsNumNeg p.1, p.2))
    | .tsym "+" :: rest => calcUnary fuel rest
    | _ => calcPow fuel ts

/-- Exponentiation level: right-associative, with a unary expression allowed
on the right-hand side only. -/
def calcPow : Nat → List CalcTok → Option (JsNum × List CalcTok)
  | 0, _ => none
  | fuel + 1, ts =>
    match calcPrimary fuel ts with
    | none => none
    | some (v, rest) =>
      match rest with
      | .tsym "**" :: rest' =>
        match calcUnary fuel rest' with
        | none => none
        | some (e, rest'') =>
          match jsNumPow v e with
          | none => none
          | some r => some (r, rest'')
      | _ => some (v, rest)

/-- Primary level: numeric literal, parenthesized expression, or a `Math`
function call.  Bare `Math.PI` / `Math.E` are irrational and therefore
outside the exact model (`none`), as is a bare function reference. -/
def calcPrimary : Nat → List CalcTok → Option (JsNum × List CalcTok)
  | 0, _ => none
  | fuel + 1, ts =>
    match ts with
    | .tnum q :: rest => some (.fin q, rest)
    | .tsym "(" :: rest =>
      match calcAdd fuel rest with
      | none => none
      | some (v, .tsym ")" :: rest') => some (v, rest')
      | some _ => none
    | .tname f :: .tsym "(" :: rest =>
      match calcAdd fuel rest with
      | none => none
      | some (v, .tsym ")" :: rest') =>
        match calcApplyFn f v with
        | none => none
        | some r => some (r, rest')
      | some _ => none
    | _ => none

end

/-- Evaluate a rewritten calculator expression, modelling the JavaScript
engine on the exactly-representable fragment; `none` models a thrown
engine error or a value outside the model. -/
def calcEval (cs : List Char) : Option JsNum :=
  match calcLex (cs.length + 1) cs with
  | none => none
  | some ts =>
    match calcAdd (16 * ts.length + 16) ts with
    | some (v, []) => some v
    | _ => none

/-- Count how often `p` divides `n`. -/
def countFactor (p : Nat) : Nat → Nat → Nat
  | 0, _ => 0
  | fuel + 1, n => if n % p = 0 && n ≠ 0 && p > 1 then countFactor p fuel (n / p) + 1 else 0

/-- Decimal rendering of a rational, as JavaScript prints numbers: plain
integers, or a terminating decimal expansion when the (reduced) denominator
has only factors 2 and 5.  Non-terminating expansions render as a fraction —
a model artifact outside the claims (real JS prints a rounded float). -/
def jsRatToString (q : JsRat) : String :=
  if q.den = 1 then toString q.num
  else
    let d : Nat := q.den.natAbs
    let a := countFactor 2 d d
    let b := countFactor 5 d d
    if d / (2 ^ a * 5 ^ b) = 1 then
      let k := max a b
      let scaled : Int := Int.ediv (q.num * (10 : Int) ^ k) q.den
      let sign := if scaled < 0 then "-" else ""
      let digits := toString scaled.natAbs
      let padded :=
        if digits.length ≤ k then
          String.mk (List.replicate (k + 1 - digits.length) '0') ++ digits
        else digits
      let ipart := String.mk (padded.toList.take (padded.length - k))
      let fpart := String.mk (padded.toList.drop (padded.length - k))
      sign ++ ipart ++ "." ++ fpart
    else toString q.num ++ "/" ++ toString q.den

/-- Template-literal display of a JavaScript number. -/
def jsNumToString : JsNum → String
  | .fin q => jsRatToString q
  | .inf p => if p then "Infinity" else "-Infinity"
  | .nan => "NaN"

/-- Model of `safeEvaluate` from `src/lib/tools/calculator.ts`: rewrite
notation, check the character allow-list, evaluate, and demand a finite
number.  `Except.error` carries the thrown message;  engine throws outside
the model's fragment surface as the generic message `Evaluation failed`. -/
def safeEvaluate (expression : String) : Except String JsNum :=
  let expr := calcRewrite expression
  if !(calcAllowed expr) then .error "Invalid characters in expression"
  else
    match calcEval expr.toList with
    | none => .error "Evaluation failed"
    | some v =>
      if !(jsNumFinite v) then .error "Expression did not evaluate to a valid number"
      else .ok v

instance exceptDecEq {ε α : Type} [DecidableEq ε] [DecidableEq α] :
    DecidableEq (Except ε α) := fun a b =>
  match a, b with
  | .ok x, .ok y =>
    if h : x = y then .isTrue (by rw [h]) else .isFalse (fun e => by cases e; exact h rfl)
  | .error x, .error y =>
    if h : x = y then .isTrue (by rw [h]) else .isFalse (fun e => by cases e; exact h rfl)
  | .ok _, .error _ => .isFalse (fun e => by cases e)
  | .error _, .ok _ => .isFalse (fun e => by cases e)

example : safeEvaluate "2 + 2" = .ok (.fin ⟨4, 1⟩) := by decide
example : (safeEvaluate "2 + 2").map jsNumToString = .ok "4" := by decide
example : safeEvaluate "require('fs')" = .error "Invalid characters in expression" := by decide
example : safeEvaluate "15 * 7" = .ok (.fin ⟨105, 1⟩) := by decide
example : (safeEvaluate "sqrt(16)").map jsNumToString = .ok "4" := by decide
example : (safeEvaluate "1 / 0") = .error "Expression did not evaluate to a valid number" := by decide
example : (safeEvaluate "2.5 * 2").map jsNumToString = .ok "5" := by decide
example : (safeEvaluate "1 / 4").map jsNumToString = .ok "0.25" := by decide
example : (safeEvaluate "2 ^ 3").map jsNumToString = .ok "8" := by decide

/-! ## Tool infrastructure (`src/lib/tools/types.ts`, oracles)

Each handler is modelled as a function of an oracle environment and the JSON
argument object, returning the `ToolResult` (or a thrown error, for the
generic registry contract) together with a trace of the external operations
it performed (HTTP requests, filesystem calls).  The embedded handlers all
catch internally, so their outcome component is always `Except.ok`; the
`Except` layer exists so that `executeTool`'s catch-and-convert contract can
be stated over arbitrary handlers. -/

/-- Result record of `src/lib/tools/types.ts`: `success` plus optional
`result` / `error` strings (`none` models an absent field). -/
structure ToolResult where
  success : Bool
  result : Option String := none
  error : Option String := none
  deriving DecidableEq

/-- A thrown JavaScript value: `isError` records whether it is an `Error`
instance (whose `message` the catch blocks use). -/
structure JsError where
  isError : Bool
  msg : String
  deriving DecidableEq

/-- The ubiquitous `error instanceof Error ? error.message : fallback`. -/
def errMsgOf (e : JsError) (fallback : String) : String :=
  if e.isError then e.msg else fallback

/-- Outcome of a `fetch` call: a thrown error (network failure, abort), or a
response with `ok`, `status`, `statusText`, a `content-type` header and the
body text (`.json()` parses the body text). -/
inductive FetchOutcome where
  | thrown (e : JsError)
  | resp (ok : Bool) (status : Int) (statusText : String) (contentType : String) (body : String)

/-- Filesystem oracle: `fs.stat().size`, `fs.readFile` (path, encoding),
`fs.mkdir {recursive}`, `fs.writeFile`, `fs.appendFile`. -/
structure FsOracle where
  statSize : String → Except JsError Int
  readFile : String → String → Except JsError String
  mkdirRec : String → Except JsError Unit
  writeFileTo : String → String → Except JsError Unit
  appendFileTo : String → String → Except JsError Unit

/-- Clock and locale oracle for the date/time tool: the host timezone, the
current epoch milliseconds, and the four `toLocale*` formattings used by the
handler, each taking the timezone and throwing on invalid timezone names. -/
structure ClockOracle where
  hostTimezone : String
  nowMs : Int
  localeSv : String → Except JsError String
  localeDateOnly : String → Except JsError String
  localeTimeOnly : String → Except JsError String
  localeReadable : String → Except JsError String

/-- Outcome of running the sandboxed code of the code-execution tool: a
thrown value (including the timeout rejection), or the captured console
lines plus the final value (`none` models `undefined`; `some s` carries the
text that `JSON.stringify(result, null, 2)` interpolates). -/
inductive JsRun where
  | thrown (e : JsError)
  | ret (logs : List String) (value : Option String)

/-- Oracle environment holding every platform service the nine handlers
touch.  `fileAllowedDirs` models `ALLOWED_DIRECTORIES` (the env-configured
prefixes, already resolved), `resolvePath` models `path.resolve`, and
`urlValid` models the `new URL(url)` well-formedness check. -/
structure Env where
  fetch : String → FetchOutcome
  fs : FsOracle
  clock : ClockOracle
  runJs : String → JsRun
  imageApiUrl : String
  fileAllowedDirs : List String
  resolvePath : String → String
  dirName : String → String
  urlValid : String → Bool

/-- Shape of an embedded tool handler: oracle environment and parsed JSON
arguments to outcome (thrown or returned `ToolResult`) plus the trace of
external operations performed, in order. -/
def ToolHandlerM : Type :=
  Env → Json → Except JsError ToolResult × List String

/-! ## Calculator handler (`src/lib/tools/calculator.ts`) -/

/-- Calculator handler: missing/falsy expression is rejected up front, a
non-string (truthy) expression makes `.replace` throw a `TypeError` inside
the `try` (surfaced with its message), and otherwise `safeEvaluate` decides
between the `"<expr> = <value>"` success and the caught error message. -/
def calculatorHandler : ToolHandlerM := fun _ args =>
  let exprField := args.getField "expression"
  if !(jsTruthyOpt exprField) then
    (.ok ⟨false, none, some "No expression provided"⟩, [])
  else
    match exprField with
    | some (.str s) =>
      match safeEvaluate s with
      | .ok v => (.ok ⟨true, some (s ++ " = " ++ jsNumToString v), none⟩, [])
      | .error m => (.ok ⟨false, none, some m⟩, [])
    | _ => (.ok ⟨false, none, some "expression.replace is not a function"⟩, [])

/-! ## Date/time handler (`src/lib/tools/datetime.ts`) -/

/-- Date/time handler: timezone defaults to the host timezone, format
defaults to `readable`; the chosen `toLocale*` formatting may throw on an
unrecoverable timezone and is then surfaced through the catch. -/
def dateTimeHandler : ToolHandlerM := fun env args =>
  let tzField := args.getField "timezone"
  let timezone := if jsTruthyOpt tzField then jsDisplayOpt tzField else env.clock.hostTimezone
  let fmtField := args.getField "format"
  let format := if jsTruthyOpt fmtField then jsDisplayOpt fmtField else "readable"
  let formatted : Except JsError String :=
    if format = "iso" then
      (env.clock.localeSv timezone).map (fun s => jsReplaceFirst " " "T" s ++ "Z")
    else if format = "date_only" then env.clock.localeDateOnly timezone
    else if format = "time_only" then env.clock.localeTimeOnly timezone
    else if format = "unix" then .ok (toString (Int.ediv env.clock.nowMs 1000))
    else env.clock.localeReadable timezone
  match formatted with
  | .ok r =>
    (.ok ⟨true, some ("Current date/time (" ++ timezone ++ "): " ++ r), none⟩, [])
  | .error e =>
    (.ok ⟨false, none, some (errMsgOf e "Failed to get date/time")⟩, [])

/-! ## URL-fetch handler (`src/lib/tools/url-fetch.ts`) -/

/-- Case-insensitive `findSub`. -/
def findSubCI (pat : List Char) : List Char → Option Nat
  | [] => if listIsPrefixOfCI pat [] then some 0 else none
  | c :: cs =>
    if listIsPrefixOfCI pat (c :: cs) then some 0
    else (findSubCI pat cs).map (· + 1)

/-- Index of the first occurrence of a single character. -/
def findCharIdx (t : Char) (cs : List Char) : Option Nat :=
  findSub [t] cs

/-- Remove `/<tag[^>]*>[\s\S]*?<\/tag>/gi` blocks: an opening `<tag ...>`
(attributes up to the first `>`), lazily to the first `</tag>`.  When an
opening tag has no closing counterpart the regex can no longer match
anywhere, so the rest of the input is kept as is. -/
def removeTagBlocks (tag : List Char) : Nat → List Char → List Char
  | 0, cs => cs
  | _, [] => []
  | fuel + 1, c :: cs =>
    if c = '<' && listIsPrefixOfCI tag cs then
      let afterTag := cs.drop tag.length
      match findCharIdx '>' afterTag with
      | none => c :: cs
      | some gi =>
        let afterOpen := afterTag.drop (gi + 1)
        match findSubCI ('<' :: '/' :: tag ++ ['>']) afterOpen with
        | none => c :: cs
        | some ci => removeTagBlocks tag fuel (afterOpen.drop (ci + tag.length + 3))
    else
      c :: removeTagBlocks tag fuel cs

/-- Remove every lazily-delimited `open ... close` block (HTML comments,
`<think>` blocks): leftmost `open`, nearest following `close`.  A dangling
`open` without `close` admits no further match. -/
def removeDelimBlocks (openPat closePat : List Char) : Nat → List Char → List Char
  | 0, cs => cs
  | _, [] => []
  | fuel + 1, c :: cs =>
    if listIsPrefixOf openPat (c :: cs) then
      let afterOpen := (c :: cs).drop openPat.length
      match findSub closePat afterOpen with
      | none => c :: cs
      | some ci => removeDelimBlocks openPat closePat fuel (afterOpen.drop (ci + closePat.length))
    else
      c :: removeDelimBlocks openPat closePat fuel cs

/-- Match the block-level tag alternation `(p|div|h[1-6]|li|tr|br)` at the
head of the input (case-insensitively), returning the matched length. -/
def matchBlockTag (cs : List Char) : Option Nat :=
  if listIsPrefixOfCI ['p'] cs then some 1
  else if listIsPrefixOfCI ['d', 'i', 'v'] cs then some 3
  else
    match cs with
    | h :: d :: _ =>
      if charCaseEq h 'h' && '1' ≤ d && d ≤ '6' then some 2
      else if charCaseEq h 'l' && charCaseEq d 'i' then some 2
      else if charCaseEq h 't' && charCaseEq d 'r' then some 2
      else if charCaseEq h 'b' && charCaseEq d 'r' then some 2
      else none
    | _ => none

/-- Rewrite `/<\/(p|div|h[1-6]|li|tr|br)[^>]*>/gi` to a newline. -/
def replaceBlockClose : Nat → List Char → List Char
  | 0, cs => cs
  | _, [] => []
  | fuel + 1, c :: cs =>
    match c :: cs with
    | '<' :: '/' :: rest =>
      match matchBlockTag rest with
      | some tl =>
        match findCharIdx '>' (rest.drop tl) with
        | some gi => '\n' :: replaceBlockClose fuel ((rest.drop tl).drop (gi + 1))
        | none => c :: replaceBlockClose fuel cs
      | none => c :: replaceBlockClose fuel cs
    | _ => c :: replaceBlockClose fuel cs

/-- Rewrite `/<(br|hr)[^>]*\/?>/gi` to a newline (the optional slash is
absorbed by the greedy attribute run, so the match extends to the first
`>`). -/
def replaceBrHr : Nat → List Char → List Char
  | 0, cs => cs
  | _, [] => []
  | fuel + 1, c :: cs =>
    if c = '<' && (listIsPrefixOfCI ['b', 'r'] cs || listIsPrefixOfCI ['h', 'r'] cs) then
      match findCharIdx '>' (cs.drop 2) with
      | some gi => '\n' :: replaceBrHr fuel ((cs.drop 2).drop (gi + 1))
      | none => c :: replaceBrHr fuel cs
    else
      c :: replaceBrHr fuel cs

/-- Rewrite remaining tags `/<[^>]+>/g` to a single space (at least one
character between the angle brackets; a bare `<>` stays). -/
def stripTagsToSpace : Nat → List Char → List Char
  | 0, cs => cs
  | _, [] => []
  | fuel + 1, c :: cs =>
    if c = '<' then
      match findCharIdx '>' cs with
      | some 0 => c :: stripTagsToSpace fuel cs
      | some gi => ' ' :: stripTagsToSpace fuel (cs.drop (gi + 1))
      | none => c :: stripTagsToSpace fuel cs
    else
      c :: stripTagsToSpace fuel cs

/-- Collapse `/[ \t]+/g` to a single space. -/
def collapseSpaceTab : Nat → List Char → List Char
  | 0, cs => cs
  | _, [] => []
  | fuel + 1, c :: cs =>
    if c = ' ' || c = '\t' then
      ' ' :: collapseSpaceTab fuel (cs.dropWhile (fun d => d = ' ' || d = '\t'))
    else
      c :: collapseSpaceTab fuel cs

/-- Index of the last newline within a run, if any. -/
def lastNlIdx (run : List Char) : Option Nat :=
  (findCharIdx '\n' run.reverse).map (fun i => run.length - 1 - i)

/-- Rewrite `/\n\s*\n/g` to exactly two newlines: a newline whose following
whitespace run contains another newline matches up to the last newline of
that run (greedy `\s*` backtracking to the final `\n`). -/
def collapseBlankLines : Nat → List Char → List Char
  | 0, cs => cs
  | _, [] => []
  | fuel + 1, c :: cs =>
    if c = '\n' then
      let run := cs.takeWhile (jsIsWs ·)
      match lastNlIdx run with
      | some k => '\n' :: '\n' :: collapseBlankLines fuel (cs.drop (k + 1))
      | none => c :: collapseBlankLines fuel cs
    else
      c :: collapseBlankLines fuel cs

/-- `htmlToText` from `src/lib/tools/url-fetch.ts`: strip script/style
blocks, comments and tags, keep block-level line breaks, decode the six
entities, collapse whitespace, trim. -/
def htmlToText (html : String) : String :=
  let cs := html.toList
  let cs := removeTagBlocks ['s', 'c', 'r', 'i', 'p', 't'] (cs.length + 1) cs
  let cs := removeTagBlocks ['s', 't', 'y', 'l', 'e'] (cs.length + 1) cs
  let cs := removeDelimBlocks "<!--".toList "-->".toList (cs.length + 1) cs
  let cs := replaceBlockClose (cs.length + 1) cs
  let cs := replaceBrHr (cs.length + 1) cs
  let cs := stripTagsToSpace (cs.length + 1) cs
  let s := String.mk cs
  let s := jsReplaceAll "&nbsp;" " " s
  let s := jsReplaceAll "&amp;" "&" s
  let s := jsReplaceAll "&lt;" "<" s
  let s := jsReplaceAll "&gt;" ">" s
  let s := jsReplaceAll "&quot;" "\"" s
  let s := jsReplaceAll "&#39;" "'" s
  let cs := collapseSpaceTab (s.length + 1) s.toList
  let cs := collapseBlankLines (cs.length + 1) cs
  jsTrim (String.mk cs)

/-- Length cap taken from `args.max_length`: a nonzero number is used, a
falsy value defaults to 5000, and a truthy non-number makes the comparison
NaN-false (`none`: no truncation).  String-to-number coercion is outside
the model. -/
def maxLengthArg (f : Option Json) : Option JsRat :=
  match f with
  | some (.num q) => if jsRatIsZero q then some ⟨5000, 1⟩ else some q
  | none => some ⟨5000, 1⟩
  | some v => if jsTruthy v then none else some ⟨5000, 1⟩

/-- `text.length > maxLength` followed by `text.substring(0, maxLength)`
(the substring argument truncates toward zero, negative becoming 0). -/
def truncateToMax (text : String) (cap : Option JsRat) : String :=
  match cap with
  | none => text
  | some q =>
    if jsRatLt q (jsRatOfInt text.length) then
      let n := jsRatTrunc q
      String.mk (text.toList.take n.toNat) ++ "\n\n[Content truncated...]"
    else text

/-- URL-fetch handler: falsy URL rejected, `new URL` validation before any
network call, 10s-timeout fetch (timeouts surface as thrown errors from the
fetch oracle), non-2xx mapped to `HTTP <status>: <statusText>`, plain-text
bodies passed through, HTML converted by `htmlToText`, then truncated. -/
def urlFetchHandler : ToolHandlerM := fun env args =>
  let urlField := args.getField "url"
  if !(jsTruthyOpt urlField) then
    (.ok ⟨false, none, some "No URL provided"⟩, [])
  else
    let url := jsDisplayOpt urlField
    if !(env.urlValid url) then
      (.ok ⟨false, none, some "Invalid URL format"⟩, [])
    else
      match env.fetch url with
      | .thrown e => (.ok ⟨false, none, some (errMsgOf e "Failed to fetch URL")⟩, [url])
      | .resp ok status statusText contentType body =>
        if !ok then
          (.ok ⟨false, none, some ("HTTP " ++ toString status ++ ": " ++ statusText)⟩, [url])
        else
          let text :=
            if (findSub "text/plain".toList contentType.toList).isSome then body
            else htmlToText body
          let text := truncateToMax text (maxLengthArg (args.getField "max_length"))
          (.ok ⟨true, some ("Content from " ++ url ++ ":\n\n" ++ text), none⟩, [url])

set_option maxRecDepth 8000 in
example :
    htmlToText "<html><head><script>var x = 1;</script></head><body><p>Hello &amp; hi</p><div>world</div></body></html>" =
      "Hello & hi\n world" := by decide

/-! ## Web-search handler (`src/lib/tools/web-search.ts`) -/

/-- Characters `encodeURIComponent` leaves unescaped. -/
def encUnreserved (c : Char) : Bool :=
  jsIsAsciiLetter c || jsIsDigit c ||
    c ∈ ['-', '_', '.', '!', '~', '*', '\'', '(', ')']

/-- UTF-8 bytes of a scalar value. -/
def utf8Bytes (n : Nat) : List Nat :=
  if n < 128 then [n]
  else if n < 2048 then [192 + n / 64, 128 + n % 64]
  else if n < 65536 then [224 + n / 4096, 128 + (n / 64) % 64, 128 + n % 64]
  else [240 + n / 262144, 128 + (n / 4096) % 64, 128 + (n / 64) % 64, 128 + n % 64]

/-- Upper-case hexadecimal digit. -/
def hexDigitU (n : Nat) : Char :=
  if n < 10 then Char.ofNat ('0'.toNat + n) else Char.ofNat ('A'.toNat + n - 10)

/-- Percent-encode one byte. -/
def pctByte (b : Nat) : List Char := ['%', hexDigitU (b / 16), hexDigitU (b % 16)]

/-- JavaScript `encodeURIComponent`. -/
def encodeURIComponent (s : String) : String :=
  String.mk (s.toList.foldr
    (fun c acc =>
      (if encUnreserved c then [c]
       else (utf8Bytes c.toNat).foldr (fun b a => pctByte b ++ a) []) ++ acc)
    [])

/-- One extracted search hit. -/
structure SearchResult where
  title : String
  url : String
  snippet : String
  deriving DecidableEq

/-- Remove `/<[^>]+>/g` with an empty replacement (snippet cleanup). -/
def stripTagsEmpty : Nat → List Char → List Char
  | 0, cs => cs
  | _, [] => []
  | fuel + 1, c :: cs =>
    if c = '<' then
      match findCharIdx '>' cs with
      | some 0 => c :: stripTagsEmpty fuel cs
      | some gi => stripTagsEmpty fuel (cs.drop (gi + 1))
      | none => c :: stripTagsEmpty fuel cs
    else
      c :: stripTagsEmpty fuel cs

/-- Scanner for the primary DuckDuckGo result regex: anchored on
`class="result__a"`, capturing the following `href` value, the anchor text
(nonempty, immediately closed by `</a>`), and the `result__snippet` anchor
body.  This models the documented regex on well-formed result markup. -/
def ddgScanMain : Nat → List Char → List (String × String × String)
  | 0, _ => []
  | fuel + 1, cs =>
    match findSubCI "class=\"result__a\"".toList cs with
    | none => []
    | some i =>
      let afterClass := cs.drop (i + 17)
      let fallback := ddgScanMain fuel afterClass
      match findSubCI "href=\"".toList afterClass with
      | none => []
      | some hi =>
        let afterHref := afterClass.drop (hi + 6)
        match findCharIdx '"' afterHref with
        | none => []
        | some qi =>
          let url := afterHref.take qi
          let afterUrl := afterHref.drop (qi + 1)
          match findCharIdx '>' afterUrl with
          | none => []
          | some gi =>
            let afterGt := afterUrl.drop (gi + 1)
            let title := afterGt.takeWhile (· ≠ '<')
            let afterTitle := afterGt.drop title.length
            if title ≠ [] && listIsPrefixOfCI "</a>".toList afterTitle then
              match findSubCI "class=\"result__snippet\"".toList afterTitle with
              | none => []
              | some si =>
                let afterSnipClass := afterTitle.drop (si + 23)
                match findCharIdx '>' afterSnipClass with
                | none => []
                | some sgi =>
                  let afterSg := afterSnipClass.drop (sgi + 1)
                  match findSubCI "</a>".toList afterSg with
                  | none => []
                  | some ei =>
                    (String.mk url, String.mk title, String.mk (afterSg.take ei)) ::
                      ddgScanMain fuel (afterSg.drop (ei + 4))
            else fallback

/-- Scanner for the fallback DuckDuckGo regex: `<div class="result..."`,
then the next `href` value, then a `result__title` anchor text. -/
def ddgScanAlt : Nat → List Char → List (String × String)
  | 0, _ => []
  | fuel + 1, cs =>
    match findSubCI "<div class=\"result".toList cs with
    | none => []
    | some i =>
      let afterDiv := cs.drop (i + 18)
      match findSubCI "href=\"".toList afterDiv with
      | none => []
      | some hi =>
        let afterHref := afterDiv.drop (hi + 6)
        match findCharIdx '"' afterHref with
        | none => []
        | some qi =>
          let url := afterHref.take qi
          let afterUrl := afterHref.drop (qi + 1)
          match findSubCI "class=\"result__title\"".toList afterUrl with
          | none => []
          | some ti =>
            let afterTitleClass := afterUrl.drop (ti + 21)
            match findCharIdx '>' afterTitleClass with
            | none => []
            | some gi =>
              let afterGt := afterTitleClass.drop (gi + 1)
              let title := afterGt.takeWhile (· ≠ '<')
              if title ≠ [] then
                (String.mk url, String.mk title) ::
                  ddgScanAlt fuel (afterGt.drop title.length)
              else ddgScanAlt fuel afterGt

/-- The primary exec loop: stop once `results.length < numResults` fails
(`none` models a NaN bound, which never admits a push), trim the title,
strip tags from and trim the snippet, and keep only matches with a truthy
URL and title where the URL is not site-relative. -/
def ddgCollectMain : List (String × String × String) → Int → Option JsRat → List SearchResult
  | [], _, _ => []
  | (u, t, s) :: rest, count, limit =>
    let withinLimit := match limit with
      | none => false
      | some q => jsRatLt (jsRatOfInt count) q
    if !withinLimit then []
    else
      let title := jsTrim t
      let snippet := jsTrim (String.mk (stripTagsEmpty (s.length + 1) s.toList))
      if u ≠ "" && title ≠ "" && !(jsStartsWith u "/") then
        ⟨title, u, snippet⟩ :: ddgCollectMain rest (count + 1) limit
      else
        ddgCollectMain rest count limit

/-- The fallback exec loop (snippets empty). -/
def ddgCollectAlt : List (String × String) → Int → Option JsRat → List SearchResult
  | [], _, _ => []
  | (u, t) :: rest, count, limit =>
    let withinLimit := match limit with
      | none => false
      | some q => jsRatLt (jsRatOfInt count) q
    if !withinLimit then []
    else
      let title := jsTrim t
      if u ≠ "" && title ≠ "" && !(jsStartsWith u "/") then
        ⟨title, u, ""⟩ :: ddgCollectAlt rest (count + 1) limit
      else
        ddgCollectAlt rest count limit

/-- `searchDuckDuckGo`: fetch the HTML results page (spoofed user agent and
timeout live in the fetch oracle), throw on non-2xx, parse with the primary
pattern and fall back to the alternative pattern when it yields nothing. -/
def searchDuckDuckGo (env : Env) (query : String) (numResults : Option JsRat) :
    Except JsError (List SearchResult) × List String :=
  let url := "https://html.duckduckgo.com/html/?q=" ++ encodeURIComponent query
  match env.fetch url with
  | .thrown e => (.error e, [url])
  | .resp ok status _ _ body =>
    if !ok then (.error ⟨true, "Search failed: HTTP " ++ toString status⟩, [url])
    else
      let prim := ddgCollectMain (ddgScanMain (body.length + 1) body.toList) 0 numResults
      let results :=
        if prim = [] then ddgCollectAlt (ddgScanAlt (body.length + 1) body.toList) 0 numResults
        else prim
      (.ok results, [url])

/-- `Math.min((args.num_results as number) || 5, 10)`: numbers are capped at
10 with falsy values defaulting to 5; a truthy non-number is NaN (`none`). -/
def numResultsArg (f : Option Json) : Option JsRat :=
  match f with
  | some (.num q) =>
    if jsRatIsZero q then some ⟨5, 1⟩
    else if jsRatLt ⟨10, 1⟩ q then some ⟨10, 1⟩ else some q
  | none => some ⟨5, 1⟩
  | some v => if jsTruthy v then none else some ⟨5, 1⟩

/-- Web-search handler: falsy query rejected, a zero-hit page is a success
(`No search results found`), hits are numbered and formatted, and any
thrown search error is caught into a failure result. -/
def webSearchHandler : ToolHandlerM := fun env args =>
  let queryField := args.getField "query"
  if !(jsTruthyOpt queryField) then
    (.ok ⟨false, none, some "No search query provided"⟩, [])
  else
    let query := jsDisplayOpt queryField
    let numResults := numResultsArg (args.getField "num_results")
    match searchDuckDuckGo env query numResults with
    | (.error e, tr) => (.ok ⟨false, none, some (errMsgOf e "Search failed")⟩, tr)
    | (.ok results, tr) =>
      if results.length = 0 then
        (.ok ⟨true, some ("No search results found for: \"" ++ query ++ "\""), none⟩, tr)
      else
        let formatted := String.intercalate "\n\n"
          (results.enum.map (fun p =>
            toString (p.1 + 1) ++ ". " ++ p.2.title ++ "\n   URL: " ++ p.2.url ++
              (if p.2.snippet ≠ "" then "\n   " ++ p.2.snippet else "")))
        (.ok ⟨true, some ("Search results for \"" ++ query ++ "\":\n\n" ++ formatted), none⟩, tr)

/-! ## File read/write handlers (`src/lib/tools/file-operations.ts`) -/

/-- Maximum file size for reading (5MB). -/
def MAX_READ_SIZE : Int := 5 * 1024 * 1024

/-- Maximum content size for writing (1MB). -/
def MAX_WRITE_SIZE : Int := 1 * 1024 * 1024

/-- `isPathAllowed`: the resolved path must extend one of the configured
allowed directory prefixes. -/
def isPathAllowed (env : Env) (filePath : String) : Bool :=
  env.fileAllowedDirs.any (fun allowed => jsStartsWith (env.resolvePath filePath) allowed)

/-- The access-denied message shared by both file handlers. -/
def accessDeniedMsg (env : Env) : String :=
  "Access denied. File must be in one of: " ++ String.intercalate ", " env.fileAllowedDirs

/-- File-read handler.  The path-allowance gate runs before the `try`, so a
denied path returns without any filesystem operation (empty trace); a truthy
non-string path makes `path.resolve` throw outside the `try`, escaping the
handler (the registry's catch picks it up). -/
def fileReadHandler : ToolHandlerM := fun env args =>
  let pathField := args.getField "path"
  if !(jsTruthyOpt pathField) then
    (.ok ⟨false, none, some "No file path provided"⟩, [])
  else
    match pathField with
    | some (.str filePath) =>
      if !(isPathAllowed env filePath) then
        (.ok ⟨false, none, some (accessDeniedMsg env)⟩, [])
      else
        let resolved := env.resolvePath filePath
        let enc := match args.getField "encoding" with
          | some (.str "base64") => "base64"
          | _ => "utf-8"
        match env.fs.statSize resolved with
        | .error e =>
          (.ok ⟨false, none, some (errMsgOf e "Failed to read file")⟩, ["stat " ++ resolved])
        | .ok size =>
          if size > MAX_READ_SIZE then
            (.ok ⟨false, none, some ("File too large (" ++ toString size ++
              " bytes). Maximum: " ++ toString MAX_READ_SIZE ++ " bytes")⟩,
             ["stat " ++ resolved])
          else
            match env.fs.readFile resolved enc with
            | .error e =>
              (.ok ⟨false, none, some (errMsgOf e "Failed to read file")⟩,
               ["stat " ++ resolved, "readFile " ++ resolved])
            | .ok content =>
              (.ok ⟨true, some ("Contents of " ++ filePath ++ ":\n\n" ++ content), none⟩,
               ["stat " ++ resolved, "readFile " ++ resolved])
    | _ =>
      (.error ⟨true, "The \"path\" argument must be of type string"⟩, [])

/-- File-write handler: missing path, then missing content
(`undefined`/`null` only — an empty string is accepted), then the allowance
gate (before any filesystem call), then the 1MB content cap, then
`mkdir -p` on the parent directory and the append-or-overwrite write. -/
def fileWriteHandler : ToolHandlerM := fun env args =>
  let pathField := args.getField "path"
  let contentField := args.getField "content"
  let contentMissing : Bool := match contentField with
    | none => true
    | some .null => true
    | _ => false
  if !(jsTruthyOpt pathField) then
    (.ok ⟨false, none, some "No file path provided"⟩, [])
  else if contentMissing then
    (.ok ⟨false, none, some "No content provided"⟩, [])
  else
    match pathField with
    | some (.str filePath) =>
      if !(isPathAllowed env filePath) then
        (.ok ⟨false, none, some (accessDeniedMsg env)⟩, [])
      else
        let append := jsTruthyOpt (args.getField "append")
        match contentField with
        | some (.str content) =>
          if (content.length : Int) > MAX_WRITE_SIZE then
            (.ok ⟨false, none, some ("Content too large (" ++ toString content.length ++
              " bytes). Maximum: " ++ toString MAX_WRITE_SIZE ++ " bytes")⟩, [])
          else
            let resolved := env.resolvePath filePath
            let dir := env.dirName resolved
            match env.fs.mkdirRec dir with
            | .error e =>
              (.ok ⟨false, none, some (errMsgOf e "Failed to write file")⟩, ["mkdir " ++ dir])
            | .ok _ =>
              let write : Except JsError Unit × String :=
                if append then (env.fs.appendFileTo resolved content, "appendFile " ++ resolved)
                else (env.fs.writeFileTo resolved content, "writeFile " ++ resolved)
              match write with
              | (.error e, op) =>
                (.ok ⟨false, none, some (errMsgOf e "Failed to write file")⟩,
                 ["mkdir " ++ dir, op])
              | (.ok _, op) =>
                (.ok ⟨true, some ("Successfully " ++ (if append then "appended to" else "wrote") ++
                  " file: " ++ filePath), none⟩, ["mkdir " ++ dir, op])
        | _ =>
          let resolved := env.resolvePath filePath
          let dir := env.dirName resolved
          match env.fs.mkdirRec dir with
          | .error e =>
            (.ok ⟨false, none, some (errMsgOf e "Failed to write file")⟩, ["mkdir " ++ dir])
          | .ok _ =>
            (.ok ⟨false, none, some "The \"data\" argument must be of type string"⟩,
             ["mkdir " ++ dir])
    | _ =>
      (.error ⟨true, "The \"path\" argument must be of type string"⟩, [])

/-! ## Weather handler (`src/lib/tools/weather.ts`) -/

/-- Weather-code lookup table. -/
def weatherCodesList : List (Int × String) :=
  [(0, "Clear sky"), (1, "Mainly clear"), (2, "Partly cloudy"), (3, "Overcast"),
   (45, "Foggy"), (48, "Depositing rime fog"),
   (51, "Light drizzle"), (53, "Moderate drizzle"), (55, "Dense drizzle"),
   (56, "Light freezing drizzle"), (57, "Dense freezing drizzle"),
   (61, "Slight rain"), (63, "Moderate rain"), (65, "Heavy rain"),
   (66, "Light freezing rain"), (67, "Heavy freezing rain"),
   (71, "Slight snow"), (73, "Moderate snow"), (75, "Heavy snow"), (77, "Snow grains"),
   (80, "Slight rain showers"), (81, "Moderate rain showers"), (82, "Violent rain showers"),
   (85, "Slight snow showers"), (86, "Heavy snow showers"),
   (95, "Thunderstorm"), (96, "Thunderstorm with slight hail"),
   (99, "Thunderstorm with heavy hail")]

/-- The sixteen compass labels. -/
def windDirections : List String :=
  ["N", "NNE", "NE", "ENE", "E", "ESE", "SE", "SSE",
   "S", "SSW", "SW", "WSW", "W", "WNW", "NW", "NNW"]

/-- `getWindDirection`: `Math.round(degrees / 22.5) % 16` indexes the table;
a non-numeric degree value (or a negative index, which JavaScript's
sign-preserving `%` can produce) indexes as `undefined`. -/
def getWindDirection (degField : Option Json) : String :=
  match degField with
  | some (.num q) =>
    let i : Int := jsRatFloor (jsRatAdd (jsRatMk (q.num * 2) (q.den * 45)) ⟨1, 2⟩)
    let m : Int := Int.tmod i 16
    if 0 ≤ m && m < 16 then windDirections.getD m.toNat "undefined" else "undefined"
  | _ => "undefined"

/-- `x.length === 0` on a JSON value (arrays and strings have a length;
objects only via an explicit `length` field). -/
def jsLenIsZero (v : Json) : Bool :=
  match v with
  | .arr xs => xs.isEmpty
  | .str s => s = ""
  | .obj _ =>
    match v.getField "length" with
    | some (.num q) => q = ⟨0, 1⟩
    | _ => false
  | _ => false

/-- `x[0]`: `none` models `undefined` (so that a subsequent property access
throws). -/
def jsIndex0 : Json → Option Json
  | .arr (x :: _) => some x
  | .arr [] => none
  | .str s => if s = "" then none else some (.str (String.mk [s.toList.headD ' ']))
  | .obj fs => (Json.obj fs).getField "0"
  | _ => none

/-- Geocoding request URL for a location string. -/
def weatherGeoUrl (location : String) : String :=
  "https://geocoding-api.open-meteo.com/v1/search?name=" ++
    encodeURIComponent location ++ "&count=1&language=en&format=json"

/-- Weather handler: geocode the location (first fetch), fail with
`Location not found` when the result list is missing or empty — before any
second request — then fetch current conditions (second fetch) and format
them.  Thrown errors anywhere in the `try` surface with their message. -/
def weatherHandler : ToolHandlerM := fun env args =>
  let locField := args.getField "location"
  if !(jsTruthyOpt locField) then
    (.ok ⟨false, none, some "No location provided"⟩, [])
  else
    let location := jsDisplayOpt locField
    let isImperial := match args.getField "units" with
      | some (.str "imperial") => true
      | _ => false
    let geoUrl := weatherGeoUrl location
    match env.fetch geoUrl with
    | .thrown e => (.ok ⟨false, none, some (errMsgOf e "Failed to get weather")⟩, [geoUrl])
    | .resp gok _ _ _ gbody =>
      if !gok then
        (.ok ⟨false, none, some "Failed to geocode location"⟩, [geoUrl])
      else
        match jsonParse gbody with
        | none =>
          (.ok ⟨false, none, some "Unexpected end of JSON input"⟩, [geoUrl])
        | some geoData =>
          let resultsField := geoData.getField "results"
          let resultsMiss : Bool := match resultsField with
            | none => true
            | some v => !(jsTruthy v) || jsLenIsZero v
          if resultsMiss then
            (.ok ⟨false, none, some ("Location not found: \"" ++ location ++ "\"")⟩, [geoUrl])
          else
            match resultsField.bind jsIndex0 with
            | none =>
              (.ok ⟨false, none, some "Cannot read properties of undefined"⟩, [geoUrl])
            | some geo =>
              let tempUnit := if isImperial then "fahrenheit" else "celsius"
              let windUnit := if isImperial then "mph" else "kmh"
              let weatherUrl := "https://api.open-meteo.com/v1/forecast?latitude=" ++
                jsDisplayOpt (geo.getField "latitude") ++ "&longitude=" ++
                jsDisplayOpt (geo.getField "longitude") ++
                "&current=temperature_2m,relative_humidity_2m,apparent_temperature,is_day,weather_code,wind_speed_10m,wind_direction_10m&temperature_unit=" ++
                tempUnit ++ "&wind_speed_unit=" ++ windUnit
              match env.fetch weatherUrl with
              | .thrown e =>
                (.ok ⟨false, none, some (errMsgOf e "Failed to get weather")⟩,
                 [geoUrl, weatherUrl])
              | .resp wok _ _ _ wbody =>
                if !wok then
                  (.ok ⟨false, none, some "Failed to fetch weather data"⟩, [geoUrl, weatherUrl])
                else
                  match jsonParse wbody with
                  | none =>
                    (.ok ⟨false, none, some "Unexpected end of JSON input"⟩,
                     [geoUrl, weatherUrl])
                  | some weatherData =>
                    let currentField := weatherData.getField "current"
                    let currentBad : Bool := match currentField with
                      | none => true
                      | some .null => true
                      | _ => false
                    if currentBad then
                      (.ok ⟨false, none, some "Cannot read properties of undefined"⟩,
                       [geoUrl, weatherUrl])
                    else
                      let cur := currentField.getD .null
                      let isDay : Bool := match cur.getField "is_day" with
                        | some (.num q) => q = ⟨1, 1⟩
                        | _ => false
                      let condition := match cur.getField "weather_code" with
                        | some (.num q) =>
                          if q.den = 1 then
                            match weatherCodesList.lookup q.num with
                            | some d => d
                            | none => "Unknown"
                          else "Unknown"
                        | _ => "Unknown"
                      let windDir := getWindDirection (cur.getField "wind_direction_10m")
                      let tempSymbol := if isImperial then "°F" else "°C"
                      let speedSymbol := if isImperial then "mph" else "km/h"
                      let locationName :=
                        if jsTruthyOpt (geo.getField "admin1") then
                          jsDisplayOpt (geo.getField "name") ++ ", " ++
                            jsDisplayOpt (geo.getField "admin1") ++ ", " ++
                            jsDisplayOpt (geo.getField "country")
                        else
                          jsDisplayOpt (geo.getField "name") ++ ", " ++
                            jsDisplayOpt (geo.getField "country")
                      let resultText := "Weather for " ++ locationName ++ ":\n\n" ++
                        "Conditions: " ++ condition ++
                        " (" ++ (if isDay then "Day" else "Night") ++ ")\n" ++
                        "Temperature: " ++ jsDisplayOpt (cur.getField "temperature_2m") ++
                        tempSymbol ++ "\n" ++
                        "Feels like: " ++ jsDisplayOpt (cur.getField "apparent_temperature") ++
                        tempSymbol ++ "\n" ++
                        "Humidity: " ++ jsDisplayOpt (cur.getField "relative_humidity_2m") ++
                        "%\n" ++
                        "Wind: " ++ jsDisplayOpt (cur.getField "wind_speed_10m") ++ " " ++
                        speedSymbol ++ " from " ++ windDir
                      (.ok ⟨true, some resultText, none⟩, [geoUrl, weatherUrl])

/-! ## Code-execution handler (`src/lib/tools/code-execution.ts`) -/

/-- Keys of the sandbox object, in declaration order (`Object.keys`). -/
def sandboxKeys : List String :=
  ["console", "Math", "Date", "JSON", "Array", "Object", "String", "Number",
   "Boolean", "RegExp", "Map", "Set", "Promise", "parseInt", "parseFloat",
   "isNaN", "isFinite", "encodeURIComponent", "decodeURIComponent",
   "encodeURI", "decodeURI"]

/-- The wrapping template around the user code. -/
def wrapSandboxCode (code : String) : String :=
  "\n      \"use strict\";\n      const \x7b " ++ String.intercalate ", " sandboxKeys ++
    " \x7d = this;\n      " ++ code ++ "\n    "

/-- Code-execution handler.  The computed timeout
(`Math.min(timeout_ms || 5000, 30000)`) parameterizes the platform timer and
is absorbed by the run oracle (a timeout rejection arrives as a thrown
`Execution timed out` error).  Captured logs and the stringified final value
are assembled exactly as in the source. -/
def codeExecutionHandler : ToolHandlerM := fun env args =>
  let codeField := args.getField "code"
  if !(jsTruthyOpt codeField) then
    (.ok ⟨false, none, some "No code provided"⟩, [])
  else
    let code := jsDisplayOpt codeField
    match env.runJs (wrapSandboxCode code) with
    | .thrown e => (.ok ⟨false, none, some (errMsgOf e "Code execution failed")⟩, [])
    | .ret logs value =>
      let output :=
        if logs.length > 0 then "Console output:\n" ++ String.intercalate "\n" logs ++ "\n\n"
        else ""
      let output := match value with
        | some v => output ++ "Result: " ++ v
        | none => if logs.length = 0 then "Code executed successfully (no output)" else output
      (.ok ⟨true, some (jsTrim output), none⟩, [])

/-! ## Image-generation handler (`src/lib/tools/image-generation.ts`) -/

/-- Style-based prompt enhancement table (unknown styles fall back to
`artistic` through the `||`). -/
def stylePromptFor (style : String) : String :=
  if style = "realistic" then "photorealistic, highly detailed, 8k, professional photography"
  else if style = "artistic" then "artistic, beautiful composition, masterpiece, best quality"
  else if style = "anime" then "anime style, vibrant colors, clean lines, studio quality"
  else if style = "digital-art" then "digital art, concept art, detailed illustration"
  else if style = "photographic" then "DSLR photo, natural lighting, sharp focus, high resolution"
  else "artistic, beautiful composition, masterpiece, best quality"

/-- `Math.min((args.width as number) || 512, 1024)`; `none` models NaN from
a truthy non-number (which `JSON.stringify` renders as `null`). -/
def imgDimArg (f : Option Json) : Option JsRat :=
  match f with
  | some (.num q) =>
    if jsRatIsZero q then some ⟨512, 1⟩
    else if jsRatLt ⟨1024, 1⟩ q then some ⟨1024, 1⟩ else some q
  | none => some ⟨512, 1⟩
  | some v => if jsTruthy v then none else some ⟨512, 1⟩

/-- Image-generation handler: deterministic configuration error when no
endpoint is configured, otherwise a single long-timeout POST whose JSON
response must carry a nonempty `images` array. -/
def imageGenerationHandler : ToolHandlerM := fun env args =>
  let promptField := args.getField "prompt"
  if !(jsTruthyOpt promptField) then
    (.ok ⟨false, none, some "No prompt provided"⟩, [])
  else if env.imageApiUrl = "" then
    (.ok ⟨false, none, some ("Image generation is not configured. Please set the IMAGE_GENERATION_API_URL environment variable to point to a Stable Diffusion API (e.g., Automatic1111 or ComfyUI).")⟩, [])
  else
    let styleField := args.getField "style"
    let style := if jsTruthyOpt styleField then jsDisplayOpt styleField else "artistic"
    let enhancedPrompt := jsDisplayOpt promptField ++ ", " ++ stylePromptFor style
    let width := imgDimArg (args.getField "width")
    let height := imgDimArg (args.getField "height")
    let url := env.imageApiUrl ++ "/sdapi/v1/txt2img"
    match env.fetch url with
    | .thrown e => (.ok ⟨false, none, some (errMsgOf e "Failed to generate image")⟩, [url])
    | .resp ok status statusText _ body =>
      if !ok then
        (.ok ⟨false, none, some ("Image API returned " ++ toString status ++ ": " ++ statusText)⟩,
         [url])
      else
        match jsonParse body with
        | none => (.ok ⟨false, none, some "Unexpected end of JSON input"⟩, [url])
        | some data =>
          let imagesField := data.getField "images"
          let noImage : Bool := match imagesField with
            | none => true
            | some v => !(jsTruthy v) || jsLenIsZero v
          if noImage then
            (.ok ⟨false, none, some "No image was generated"⟩, [url])
          else
            let dimJson (d : Option JsRat) : Json := match d with
              | some q => .num q
              | none => .null
            let fields :=
              [("type", Json.str "image"), ("format", Json.str "base64")] ++
              (match imagesField.bind jsIndex0 with
               | some v => [("data", v)]
               | none => []) ++
              [("prompt", Json.str enhancedPrompt),
               ("width", dimJson width), ("height", dimJson height)]
            (.ok ⟨true, some (jsonSerialize (.obj fields)), none⟩, [url])

/-! ## Tool registry (`src/lib/tools/index.ts`) -/

/-- The handler registry, in registration order. -/
def toolHandlers : List (String × ToolHandlerM) :=
  [("calculator", calculatorHandler),
   ("get_current_datetime", dateTimeHandler),
   ("fetch_url", urlFetchHandler),
   ("web_search", webSearchHandler),
   ("execute_code", codeExecutionHandler),
   ("read_file", fileReadHandler),
   ("write_file", fileWriteHandler),
   ("get_weather", weatherHandler),
   ("generate_image", imageGenerationHandler)]

/-- `getRegisteredTools()`: the registry's key list, in insertion order. -/
def getRegisteredTools : List String := toolHandlers.map Prod.fst

/-- `executeTool` over an arbitrary handler table: unknown names produce the
`Unknown tool` failure without consulting any handler, and anything a
handler throws is caught and converted to a failure result. -/
def executeToolWith (handlers : List (String × ToolHandlerM)) (env : Env)
    (name : String) (args : Json) : ToolResult × List String :=
  match handlers.lookup name with
  | none => (⟨false, none, some ("Unknown tool: " ++ name)⟩, [])
  | some h =>
    match h env args with
    | (.ok r, tr) => (r, tr)
    | (.error e, tr) => (⟨false, none, some (errMsgOf e "Unknown error executing tool")⟩, tr)

/-- `executeTool` bound to the real registry. -/
def executeTool (env : Env) (name : String) (args : Json) : ToolResult × List String :=
  executeToolWith toolHandlers env name args

/-! ## Text tool-call extractor (`parseTextToolCalls`, identical in
`src/app/api/chat/route.ts` and the forced-finalization revision) -/

/-- Normalized tool invocation (name plus parsed JSON arguments). -/
structure TextToolCall where
  name : String
  args : Json

/-- Scanner for pattern 1, `/(\w+)\[ARGS\](\{[\s\S]*?\})/g`: a maximal word
run, the literal `[ARGS]`, then a brace group lazily closed at the first
`}`.  Yields (name, json text) pairs in scan order. -/
def scanArgsPattern : Nat → List Char → List (String × String)
  | 0, _ => []
  | _, [] => []
  | fuel + 1, c :: cs =>
    let w := (c :: cs).takeWhile (jsIsWordChar ·)
    if w ≠ [] && listIsPrefixOf "[ARGS]".toList ((c :: cs).drop w.length) then
      match (c :: cs).drop (w.length + 6) with
      | '{' :: rest =>
        match findCharIdx '}' rest with
        | some bi =>
          (String.mk w, String.mk ('{' :: (rest.take bi ++ ['}']))) ::
            scanArgsPattern fuel (rest.drop (bi + 1))
        | none => []
      | _ => scanArgsPattern fuel cs
    else scanArgsPattern fuel cs

/-- Scanner for pattern 2, `/<tool_call>([\s\S]*?)<\/tool_call>/g`: leftmost
opening tag, lazily matched to the nearest closing tag. -/
def scanToolCallTags : Nat → List Char → List String
  | 0, _ => []
  | fuel + 1, cs =>
    match findSub "<tool_call>".toList cs with
    | none => []
    | some i =>
      let afterOpen := cs.drop (i + 11)
      match findSub "</tool_call>".toList afterOpen with
      | none => []
      | some j =>
        String.mk (afterOpen.take j) :: scanToolCallTags fuel (afterOpen.drop (j + 12))

/-- First position where `"tool"` or `"function"` (with quotes) occurs,
together with the matched length. -/
def findQuotedAlt : List Char → Option (Nat × Nat)
  | [] => none
  | c :: cs =>
    if listIsPrefixOf "\"tool\"".toList (c :: cs) then some (0, 6)
    else if listIsPrefixOf "\"function\"".toList (c :: cs) then some (0, 10)
    else (findQuotedAlt cs).map (fun p => (p.1 + 1, p.2))

/-- Scanner for pattern 3, `/\{[\s\S]*?"(?:tool|function)"[\s\S]*?\}/g`: an
opening brace, lazily to the nearest quoted `tool`/`function` key, lazily to
the nearest following closing brace. -/
def scanJsonToolPattern : Nat → List Char → List String
  | 0, _ => []
  | _, [] => []
  | fuel + 1, c :: cs =>
    if c = '{' then
      match findQuotedAlt cs with
      | none => []
      | some (j, len) =>
        match findCharIdx '}' (cs.drop (j + len)) with
        | none => []
        | some k =>
          String.mk ('{' :: cs.take (j + len + k + 1)) ::
            scanJsonToolPattern fuel (cs.drop (j + len + k + 1))
    else scanJsonToolPattern fuel cs

/-- `a || b` chaining on possibly-`undefined` values. -/
def jsOrOpt (a b : Option Json) : Option Json :=
  if jsTruthyOpt a then a else b

/-- `parseTextToolCalls` from the chat route: collect pattern-1 matches,
then pattern-2 matches, then pattern-3 matches; skip malformed JSON
silently; accept a parsed name only when it is in the registry's name
list. -/
def parseTextToolCalls (content : String) : List TextToolCall :=
  let registeredTools := getRegisteredTools
  let cs := content.toList
  let p1 := (scanArgsPattern (cs.length + 1) cs).filterMap (fun m =>
    match jsonParse m.2 with
    | some args =>
      if registeredTools.contains m.1 then some ⟨m.1, args⟩ else none
    | none => none)
  let p2 := (scanToolCallTags (cs.length + 1) cs).filterMap (fun m =>
    match jsonParse m with
    | some parsed =>
      match parsed.getField "name" with
      | some (.str s) =>
        if s ≠ "" && registeredTools.contains s then
          some ⟨s, jsOr (parsed.getField "arguments") (.obj [])⟩
        else none
      | _ => none
    | none => none)
  let p3 := (scanJsonToolPattern (cs.length + 1) cs).filterMap (fun m =>
    match jsonParse m with
    | some parsed =>
      match jsOrOpt (parsed.getField "tool")
          (jsOrOpt (parsed.getField "function") (parsed.getField "name")) with
      | some (.str s) =>
        if s ≠ "" && registeredTools.contains s then
          some ⟨s, jsOr (parsed.getField "arguments")
            (jsOr (jsOrOpt (parsed.getField "params") (parsed.getField "parameters"))
              (.obj []))⟩
        else none
      | _ => none
    | none => none)
  p1 ++ p2 ++ p3

/-! ## Streaming orchestration loop

Two revisions of `POST /api/chat` exist in the repository: the one at
`src/app/api/chat/route.ts` (iteration cap 10, no forced finalization, no
thinking handling) and the sibling revision (iteration cap 5; on the final
permitted iteration tools are disabled and a forced-finalization user
message is appended; thinking chunks are buffered and flushed as a single
`<think>` block).  The model runtime is an oracle mapping the transcript and
the tools-enabled flag to the chunk stream of that call. -/

/-- One chunk of the streaming model response: optional content text,
optional thinking text, and the optional structured tool-call list (already
projected to name/arguments pairs, as the loop's `map` does). -/
structure Chunk where
  content : String := ""
  thinking : String := ""
  tool_calls : Option (List TextToolCall) := none

/-- Transcript message (role and content). -/
structure ChatMsg where
  role : String
  content : String
  deriving DecidableEq

/-- The model runtime as a deterministic oracle over (transcript,
tools-passed). -/
def ModelOracle : Type := List ChatMsg → Bool → List Chunk

/-- `MAX_TOOL_ITERATIONS` of `src/app/api/chat/route.ts`. -/
def MAX_TOOL_ITERATIONS : Nat := 10

/-- `MAX_TOOL_ITERATIONS` of the forced-finalization revision. -/
def MAX_TOOL_ITERATIONS_FORCED : Nat := 5

/-- System prompt injected by `src/app/api/chat/route.ts` when tools are
enabled (content opaque to the verified properties). -/
def TOOL_SYSTEM_PROMPT : String :=
  "You are a helpful AI assistant with access to various tools.\n\n## Tool Usage Guidelines\n\n1. **Think before acting**: Before using a tool, briefly consider what information you need and which tool(s) would best provide it.\n\n2. **Be specific**: When a query is vague (e.g., \"weather in Arizona\"), ask for clarification OR make a reasonable specific choice (e.g., Phoenix, the capital). Don't call multiple tools for different interpretations.\n\n3. **Minimize tool calls**: Use the minimum number of tool calls needed. For example:\n   - If asked about weather in \"Paris\", call once for Paris, France (the most likely intent)\n   - If asked about \"3 cities\", call exactly 3 times\n   - Don't call the same tool repeatedly with slight variations\n\n4. **Handle errors gracefully**: If a tool call fails, explain the issue to the user rather than retrying with random variations.\n\n5. **Synthesize results**: After receiving tool results, provide a clear, helpful summary rather than just echoing the raw data.\n\nWhen using thinking/reasoning models: Use your <think> block to plan which tools to use and why, then execute efficiently."

/-- System prompt of the forced-finalization revision. -/
def TOOL_SYSTEM_PROMPT_FORCED : String :=
  "You are a helpful AI assistant with access to various tools.\n\n## CRITICAL Tool Usage Rules\n\n1. **ONE attempt per tool**: If a tool returns a result (even partial), USE that result. Do NOT retry the same tool with different parameters.\n\n2. **Accept first valid result**: When you get weather, search results, or any data - use it immediately in your response. Don't try to \"improve\" it.\n\n3. **Handle errors gracefully**: If a tool fails, tell the user. Do NOT retry with variations.\n\n4. **Give a final answer**: After using tools, you MUST provide a helpful summary to the user. Never end with just tool calls.\n\n5. **Be specific with locations**: For vague locations like \"Arizona\", pick the most likely city (e.g., Phoenix) and use it once.\n\nExample of CORRECT behavior:\n- User: \"Weather in Arizona\"\n- You: Call get_weather with \"Phoenix, Arizona\" ONCE\n- Tool returns result\n- You: Summarize the weather for the user\n\nExample of WRONG behavior:\n- Calling the same tool multiple times with slight variations\n- Not providing a final response after getting tool results"

/-- The forced-finalization instruction appended on the last permitted
iteration of the forced-finalization revision. -/
def FORCE_RESPONSE_MESSAGE : String :=
  "You have made several tool calls. Now you MUST provide a final response to the user based on the information you have gathered. Do NOT make any more tool calls. Summarize what you learned and answer the user's question."

/-- Plain result text fed back to the model: the tool's `result` (or empty
string) on success, `Error: <error>` on failure. -/
def toolResultText (env : Env) (name : String) (args : Json) : String :=
  let out := (executeTool env name args).1
  if out.success then
    match out.result with
    | some r => r
    | none => ""
  else
    "Error: " ++ (match out.error with | some e => e | none => "undefined")

/-- Decorated marker written to the client byte stream (and only there). -/
def toolMarkerText (env : Env) (tc : TextToolCall) : String :=
  "<!--TOOL_START:" ++ tc.name ++ ":" ++ jsonSerialize tc.args ++ "-->" ++
    toolResultText env tc.name tc.args ++ "<!--TOOL_END-->\n\n"

/-- The per-round tool-execution `for` loop of both route revisions: each
call is executed, its decorated marker is enqueued to the client stream, and
a `tool`-role message with the plain result text is appended to the working
transcript. -/
def execToolCalls (env : Env) (msgs : List ChatMsg) (stream : List String) :
    List TextToolCall → List ChatMsg × List String
  | [] => (msgs, stream)
  | tc :: rest =>
    let tr := toolResultText env tc.name tc.args
    execToolCalls env (msgs ++ [⟨"tool", tr⟩]) (stream ++ [toolMarkerText env tc]) rest

/-- Chunk-stream processing of `src/app/api/chat/route.ts`: forward content
tokens immediately, accumulate the full content, and let the last chunk
carrying a `tool_calls` field win. -/
def routeProcessChunks (chunks : List Chunk) : String × List String × List TextToolCall :=
  chunks.foldl
    (fun acc ch =>
      let acc :=
        if ch.content ≠ "" then (acc.1 ++ ch.content, acc.2.1 ++ [ch.content], acc.2.2)
        else acc
      match ch.tool_calls with
      | some tcs => (acc.1, acc.2.1, tcs)
      | none => acc)
    ("", [], [])

/-- Information recorded about each model-call round: whether the tool list
was passed to the model, and the working transcript at the moment of the
call. -/
structure RoundInfo where
  toolsPassed : Bool
  msgsAtCall : List ChatMsg
  deriving DecidableEq

/-- Observable outcome of a loop run: the rounds performed, the client byte
stream (as the list of enqueued strings), and the final working
transcript. -/
structure LoopOut where
  rounds : List RoundInfo
  stream : List String
  transcript : List ChatMsg
  deriving DecidableEq

/-- The `while (iterations < MAX_TOOL_ITERATIONS)` loop of
`src/app/api/chat/route.ts`, by remaining budget. -/
def routeLoopAux (chat : ModelOracle) (env : Env) (enableTools : Bool) :
    Nat → List ChatMsg → LoopOut
  | 0, msgs => ⟨[], [], msgs⟩
  | fuel + 1, msgs =>
    let toolsPassed := enableTools
    let chunks := chat msgs toolsPassed
    let (fullContent, out, native) := routeProcessChunks chunks
    let toolCalls := if native.isEmpty && enableTools then parseTextToolCalls fullContent else native
    let round : RoundInfo := ⟨toolsPassed, msgs⟩
    if toolCalls.isEmpty then
      ⟨[round], out, msgs⟩
    else
      let msgs1 := msgs ++ [⟨"assistant", fullContent⟩]
      let (msgs2, stream2) := execToolCalls env msgs1 (out ++ ["\n\n"]) toolCalls
      let rest := routeLoopAux chat env enableTools fuel msgs2
      ⟨round :: rest.rounds, stream2 ++ rest.stream, rest.transcript⟩

/-- `POST /api/chat` of `src/app/api/chat/route.ts`: prepend the system
prompt when tools are enabled, then run the bounded loop. -/
def runChatRoute (chat : ModelOracle) (env : Env) (messages : List ChatMsg)
    (enableTools : Bool) : LoopOut :=
  let workingMessages :=
    if enableTools then ⟨"system", TOOL_SYSTEM_PROMPT⟩ :: messages else messages
  routeLoopAux chat env enableTools MAX_TOOL_ITERATIONS workingMessages

/-- Mutable per-round state of the forced-finalization revision's chunk
loop. -/
structure RoundProc where
  out : List String := []
  fullContent : String := ""
  fullThinking : String := ""
  thinkingSent : Bool := false
  toolCalls : List TextToolCall := []

/-- The `<think>` wrapper emitted for a buffered thinking block. -/
def thinkMarkerOf (t : String) : String := "<think>" ++ t ++ "</think>\n\n"

/-- Per-chunk step of the forced-finalization revision: buffer thinking;
on the first content token flush the accumulated thinking as one wrapped
block before forwarding the content; let the last `tool_calls` field win. -/
def processChunk (st : RoundProc) (ch : Chunk) : RoundProc :=
  let st :=
    if ch.thinking ≠ "" then { st with fullThinking := st.fullThinking ++ ch.thinking } else st
  let st :=
    if ch.content ≠ "" then
      let st :=
        if st.fullThinking ≠ "" && !st.thinkingSent then
          { st with out := st.out ++ [thinkMarkerOf st.fullThinking], thinkingSent := true }
        else st
      { st with fullContent := st.fullContent ++ ch.content, out := st.out ++ [ch.content] }
    else st
  match ch.tool_calls with
  | some tcs => { st with toolCalls := tcs }
  | none => st

/-- Whole-stream processing of one round, including the end-of-stream flush
of thinking that no content followed. -/
def processChunks (chunks : List Chunk) : RoundProc :=
  let st := chunks.foldl processChunk {}
  if st.fullThinking ≠ "" && !st.thinkingSent then
    { st with out := st.out ++ [thinkMarkerOf st.fullThinking] }
  else st

/-- The `while` loop of the forced-finalization revision: on the last
permitted iteration (remaining budget 1) the forced-finalization user
message is appended before the call and tools are disabled. -/
def part3LoopAux (chat : ModelOracle) (env : Env) (enableTools : Bool) :
    Nat → List ChatMsg → LoopOut
  | 0, msgs => ⟨[], [], msgs⟩
  | fuel + 1, msgs =>
    let isLast := fuel = 0
    let msgs := if isLast then msgs ++ [⟨"user", FORCE_RESPONSE_MESSAGE⟩] else msgs
    let toolsPassed := enableTools && !isLast
    let chunks := chat msgs toolsPassed
    let st := processChunks chunks
    let toolCalls :=
      if st.toolCalls.isEmpty && enableTools then parseTextToolCalls st.fullContent
      else st.toolCalls
    let round : RoundInfo := ⟨toolsPassed, msgs⟩
    if toolCalls.isEmpty then
      ⟨[round], st.out, msgs⟩
    else
      let msgs1 := msgs ++ [⟨"assistant", st.fullContent⟩]
      let (msgs2, stream2) := execToolCalls env msgs1 (st.out ++ ["\n\n"]) toolCalls
      let rest := part3LoopAux chat env enableTools fuel msgs2
      ⟨round :: rest.rounds, stream2 ++ rest.stream, rest.transcript⟩

/-- `POST /api/chat` of the forced-finalization revision. -/
def runChatPart3 (chat : ModelOracle) (env : Env) (messages : List ChatMsg)
    (enableTools : Bool) : LoopOut :=
  let workingMessages :=
    if enableTools then ⟨"system", TOOL_SYSTEM_PROMPT_FORCED⟩ :: messages else messages
  part3LoopAux chat env enableTools MAX_TOOL_ITERATIONS_FORCED workingMessages

/-! ## Title-cleaning pipeline (`src/app/api/chat/title/route.ts`)

The cleanup chain applied to the raw title-model output:
`trim`, remove `<think>...</think>` blocks, strip one surrounding quote pair,
strip a leading case-insensitive `Title:` label, strip quotes again, keep
only the first line (`/\n.*/g` removes every newline and the rest of its
line), `trim`, then cap at six whitespace-separated words. -/

/-- Quote characters of the `/^["']|["']$/g` stripping regex. -/
def isQuoteChar (c : Char) : Bool := c = '"' || c = '\''

/-- Removal of `<think>...</think>` blocks (`/<think>[\s\S]*?<\/think>/g`). -/
def stripThinkL (cs : List Char) : List Char :=
  removeDelimBlocks "<think>".toList "</think>".toList (cs.length + 1) cs

/-- One pass of `/^["']|["']$/g`: at most one leading and one trailing quote
are removed (the trailing match must not reuse the consumed leading
character). -/
def stripQuotesL (cs : List Char) : List Char :=
  let cs1 := match cs with
    | c :: rest => if isQuoteChar c then rest else c :: rest
    | [] => []
  match cs1.getLast? with
  | some l => if isQuoteChar l then cs1.dropLast else cs1
  | none => cs1

/-- `/^Title:\s*/i`: drop a case-insensitive `Title:` label and the
whitespace run after it. -/
def stripTitleLabelL (cs : List Char) : List Char :=
  if listIsPrefixOfCI "title:".toList cs then (cs.drop 6).dropWhile (jsIsWs ·) else cs

/-- `/\n.*/g` with empty replacement keeps exactly the first line. -/
def firstLineL (cs : List Char) : List Char := cs.takeWhile (· ≠ '\n')

/-- State machine for `split(/\s+/)`: maximal whitespace runs separate
tokens, with an empty token at an end that begins or finishes with a run. -/
def splitWsGo : List Char → List Char → Bool → List (List Char)
  | [], acc, _ => [acc.reverse]
  | c :: cs, acc, inRun =>
    if jsIsWs c then
      if inRun then splitWsGo cs acc true
      else acc.reverse :: splitWsGo cs [] true
    else splitWsGo cs (c :: acc) false

/-- JavaScript `s.split(/\s+/)` on character lists. -/
def splitWsL (cs : List Char) : List (List Char) := splitWsGo cs [] false

/-- The six-word hard cap: re-join the first six tokens with single
spaces, leaving shorter titles untouched. -/
def capWordsL (cs : List Char) : List Char :=
  let ws := splitWsL cs
  if ws.length > 6 then List.intercalate [' '] (ws.take 6) else cs

/-- The whole title-cleaning pipeline on character lists. -/
def cleanTitleL (cs : List Char) : List Char :=
  let cs := jsTrimL cs
  let cs := stripThinkL cs
  let cs := stripQuotesL cs
  let cs := stripTitleLabelL cs
  let cs := stripQuotesL cs
  let cs := firstLineL cs
  let cs := jsTrimL cs
  capWordsL cs

/-- The title-cleaning pipeline of `POST /api/chat/title`. -/
def cleanTitle (s : String) : String := String.mk (cleanTitleL s.toList)

example : cleanTitle "\"Weather Chat\"" = "Weather Chat" := by decide
example : cleanTitle "<think>hm</think>Title: \"Hello World\"" = "Hello World" := by decide
example : cleanTitle "  one two three four five six seven eight " =
    "one two three four five six" := by decide
example : cleanTitle "first line\nsecond line" = "first line" := by decide

/-! ## Observables used by the verified properties, and concrete fixtures -/

/-- Total thinking accumulated over a round's chunk stream. -/
def thinkAll (chunks : List Chunk) : String :=
  chunks.foldl (fun a c => a ++ c.thinking) ""

/-- The round's content tokens, in arrival order (empty chunks carry no
token). -/
def contentsOf (chunks : List Chunk) : List String :=
  (chunks.map (·.content)).filter (· ≠ "")

/-- Concrete oracle environment for witnesses: no network, no filesystem,
no sandbox; `/tmp` is the only allowed file prefix and paths resolve to
themselves. -/
def trivialEnv : Env where
  fetch := fun _ => .thrown ⟨true, "network disabled"⟩
  fs :=
    { statSize := fun _ => .error ⟨true, "fs disabled"⟩
      readFile := fun _ _ => .error ⟨true, "fs disabled"⟩
      mkdirRec := fun _ => .error ⟨true, "fs disabled"⟩
      writeFileTo := fun _ _ => .error ⟨true, "fs disabled"⟩
      appendFileTo := fun _ _ => .error ⟨true, "fs disabled"⟩ }
  clock :=
    { hostTimezone := "UTC"
      nowMs := 0
      localeSv := fun _ => .ok "1970-01-01 00:00:00"
      localeDateOnly := fun _ => .ok "Thursday, January 1, 1970"
      localeTimeOnly := fun _ => .ok "12:00:00 AM"
      localeReadable := fun _ => .ok "Thursday, January 1, 1970 at 12:00:00 AM UTC" }
  runJs := fun _ => .thrown ⟨true, "sandbox disabled"⟩
  imageApiUrl := ""
  fileAllowedDirs := ["/tmp"]
  resolvePath := fun p => p
  dirName := fun _ => "/"
  urlValid := fun _ => false

/-- A model oracle that answers every call with a native calculator tool
call and no content: the adversarial behavior of the loop-termination
property. -/
def alwaysToolChat : ModelOracle := fun _ _ =>
  [{ content := "", thinking := "",
     tool_calls := some [⟨"calculator", .obj [("expression", .str "1+1")]⟩] }]

/-- Geocoding fixture: the geocoding request succeeds with an empty result
list; everything else throws. -/
def geoMissEnv : Env :=
  { trivialEnv with
    fetch := fun url =>
      if url = weatherGeoUrl "Nowhereville" then
        .resp true 200 "OK" "application/json" "\x7b\"results\": []\x7d"
      else .thrown ⟨true, "network disabled"⟩ }

/-- The chunk stream refuting the naive reading of the thinking-buffer
property: thinking arrives both before and after the first content token. -/
def lateThinkChunks : List Chunk :=
  [{ content := "", thinking := "A", tool_calls := none },
   { content := "x", thinking := "", tool_calls := none },
   { content := "", thinking := "B", tool_calls := none }]

/-- A synthetic handler that always throws, exercising the registry's
catch-and-convert contract. -/
def boomHandler : ToolHandlerM := fun _ _ => (.error ⟨true, "kaboom"⟩, [])

/-- A one-entry handler table around `boomHandler`. -/
def boomHandlers : List (String × ToolHandlerM) := [("boom", boomHandler)]

/-! ## Verified properties -/

theorem lookup_eq_none_of_not_mem {α β : Type} [BEq α] [LawfulBEq α]
    (l : List (α × β)) (k : α) (h : k ∉ l.map Prod.fst) : l.lookup k = none := by
  induction l with
  | nil => rfl
  | cons p ps ih =>
    simp only [List.map_cons, List.mem_cons] at h
    push_neg at h
    simp only [List.lookup]
    have hne : (k == p.1) = false := by simpa using h.1
    rw [hne]
    exact ih h.2

/-- C10: calling the tool executor with a name outside the registry returns
the ordinary failure result `Unknown tool: <name>` with an empty operation
trace, independently of the handler table's handlers (so no handler is
invoked) and without throwing. -/
theorem executeTool_unknown_tool (handlers : List (String × ToolHandlerM)) (env : Env)
    (name : String) (args : Json) (h : name ∉ handlers.map Prod.fst) :
    executeToolWith handlers env name args =
      (⟨false, none, some ("Unknown tool: " ++ name)⟩, []) := by
  unfold executeToolWith
  rw [lookup_eq_none_of_not_mem handlers name h]

theorem executeTool_unknown_tool_witness :
    executeTool trivialEnv "frobnicate" (.obj []) =
      (⟨false, none, some "Unknown tool: frobnicate"⟩, []) := by
  have h := executeTool_unknown_tool toolHandlers trivialEnv "frobnicate" (.obj [])
    (by decide)
  rw [executeTool, h]
  decide

/-- Exactly-one-of discipline of a `ToolResult`: `result` present and
`error` absent on success, `error` present and `result` absent on
failure. -/
def ToolResultWF (r : ToolResult) : Prop :=
  (r.success = true → (∃ s, r.result = some s) ∧ r.error = none) ∧
  (r.success = false → (∃ s, r.error = some s) ∧ r.result = none)

set_option maxHeartbeats 2000000 in
theorem calculatorHandler_wf (env : Env) (args : Json) (r : ToolResult)
    (tr : List String) (h : calculatorHandler env args = (.ok r, tr)) : ToolResultWF r := by
  unfold calculatorHandler at h
  dsimp only at h
  repeat' split at h
  all_goals (injection h with hA hB; first
    | (injection hA with hA; subst hA; simp [ToolResultWF])
    | injection hA)

set_option maxHeartbeats 2000000 in
theorem dateTimeHandler_wf (env : Env) (args : Json) (r : ToolResult)
    (tr : List String) (h : dateTimeHandler env args = (.ok r, tr)) : ToolResultWF r := by
  unfold dateTimeHandler at h
  dsimp only at h
  repeat' split at h
  all_goals (injection h with hA hB; first
    | (injection hA with hA; subst hA; simp [ToolResultWF])
    | injection hA)

set_option maxHeartbeats 2000000 in
theorem urlFetchHandler_wf (env : Env) (args : Json) (r : ToolResult)
    (tr : List String) (h : urlFetchHandler env args = (.ok r, tr)) : ToolResultWF r := by
  unfold urlFetchHandler at h
  dsimp only at h
  repeat' split at h
  all_goals (injection h with hA hB; first
    | (injection hA with hA; subst hA; simp [ToolResultWF])
    | injection hA)

set_option maxHeartbeats 2000000 in
theorem webSearchHandler_wf (env : Env) (args : Json) (r : ToolResult)
    (tr : List String) (h : webSearchHandler env args = (.ok r, tr)) : ToolResultWF r := by
  unfold webSearchHandler at h
  dsimp only at h
  repeat' split at h
  all_goals (injection h with hA hB; first
    | (injection hA with hA; subst hA; simp [ToolResultWF])
    | injection hA)

set_option maxHeartbeats 2000000 in
theorem codeExecutionHandler_wf (env : Env) (args : Json) (r : ToolResult)
    (tr : List String) (h : codeExecutionHandler env args = (.ok r, tr)) : ToolResultWF r := by
  unfold codeExecutionHandler at h
  dsimp only at h
  repeat' split at h
  all_goals (injection h with hA hB; first
    | (injection hA with hA; subst hA; simp [ToolResultWF])
    | injection hA)

set_option maxHeartbeats 2000000 in
theorem fileReadHandler_wf (env : Env) (args : Json) (r : ToolResult)
    (tr : List String) (h : fileReadHandler env args = (.ok r, tr)) : ToolResultWF r := by
  unfold fileReadHandler at h
  dsimp only at h
  repeat' split at h
  all_goals (injection h with hA hB; first
    | (injection hA with hA; subst hA; simp [ToolResultWF])
    | injection hA)

set_option maxHeartbeats 2000000 in
theorem fileWriteHandler_wf (env : Env) (args : Json) (r : ToolResult)
    (tr : List String) (h : fileWriteHandler env args = (.ok r, tr)) : ToolResultWF r := by
  unfold fileWriteHandler at h
  dsimp only at h
  repeat' split at h
  all_goals (injection h with hA hB; first
    | (injection hA with hA; subst hA; simp [ToolResultWF])
    | injection hA)

set_option maxHeartbeats 2000000 in
theorem weatherHandler_wf (env : Env) (args : Json) (r : ToolResult)
    (tr : List String) (h : weatherHandler env args = (.ok r, tr)) : ToolResultWF r := by
  unfold weatherHandler at h
  dsimp only at h
  repeat' split at h
  all_goals (injection h with hA hB; first
    | (injection hA with hA; subst hA; simp [ToolResultWF])
    | injection hA)

set_option maxHeartbeats 2000000 in
theorem imageGenerationHandler_wf (env : Env) (args : Json) (r : ToolResult)
    (tr : List String) (h : imageGenerationHandler env args = (.ok r, tr)) : ToolResultWF r := by
  unfold imageGenerationHandler at h
  dsimp only at h
  repeat' split at h
  all_goals (injection h with hA hB; first
    | (injection hA with hA; subst hA; simp [ToolResultWF])
    | injection hA)

theorem lookup_mem_of_eq_some {α β : Type} [BEq α] [LawfulBEq α] :
    ∀ (l : List (α × β)) (k : α) (v : β), l.lookup k = some v → ∃ k', (k', v) ∈ l := by
  intro l k v h
  induction l with
  | nil => simp [List.lookup] at h
  | cons p ps ih =>
    simp only [List.lookup] at h
    by_cases hk : (k == p.1) = true
    · rw [hk] at h
      refine ⟨p.1, ?_⟩
      simp only [Option.some.injEq] at h
      subst h
      exact List.mem_cons_self _ _
    · rw [Bool.not_eq_true] at hk
      rw [hk] at h
      obtain ⟨k', hm⟩ := ih h
      exact ⟨k', List.mem_cons_of_mem _ hm⟩

/-- C4: the tool executor is total and well-formed: with the real registry,
every environment, tool name and argument object yields a `ToolResult`
satisfying the exactly-one-of `result`/`error` discipline gated by
`success`; and over any handler table, an exception thrown by a handler is
caught and converted to `{success: false, error: <message>}`. -/
theorem executeTool_never_throws_wellformed :
    (∀ env name args, ToolResultWF (executeTool env name args).1) ∧
    (∀ handlers env name args h e tr,
      List.lookup name handlers = some h → h env args = (.error e, tr) →
      executeToolWith handlers env name args =
        (⟨false, none, some (errMsgOf e "Unknown error executing tool")⟩, tr)) := by
  constructor
  · intro env name args
    unfold executeTool executeToolWith
    cases hlk : List.lookup name toolHandlers with
    | none => simp [ToolResultWF]
    | some h =>
      obtain ⟨k', hmem⟩ := lookup_mem_of_eq_some _ _ _ hlk
      cases hout : h env args with
      | mk out tr' =>
        cases out with
        | ok r =>
          simp only [hout]
          simp only [toolHandlers, List.mem_cons, List.not_mem_nil, or_false,
            Prod.mk.injEq] at hmem
          obtain hm | hm | hm | hm | hm | hm | hm | hm | hm := hmem <;>
            obtain ⟨-, rfl⟩ := hm <;>
            first
              | exact calculatorHandler_wf env args r tr' hout
              | exact dateTimeHandler_wf env args r tr' hout
              | exact urlFetchHandler_wf env args r tr' hout
              | exact webSearchHandler_wf env args r tr' hout
              | exact codeExecutionHandler_wf env args r tr' hout
              | exact fileReadHandler_wf env args r tr' hout
              | exact fileWriteHandler_wf env args r tr' hout
              | exact weatherHandler_wf env args r tr' hout
              | exact imageGenerationHandler_wf env args r tr' hout
        | error e => simp [hout, ToolResultWF]
  · intro handlers env name args h e tr hlk hout
    unfold executeToolWith
    rw [hlk]
    dsimp only
    rw [hout]

theorem executeTool_never_throws_wellformed_witness :
    ((∃ s, (executeTool trivialEnv "calculator"
        (.obj [("expression", .str "2 + 2")])).1.result = some s) ∧
      (executeTool trivialEnv "calculator"
        (.obj [("expression", .str "2 + 2")])).1.error = none) ∧
    executeToolWith boomHandlers trivialEnv "boom" (.obj []) =
      (⟨false, none, some "kaboom"⟩, []) := by
  refine ⟨(executeTool_never_throws_wellformed.1 trivialEnv "calculator"
    (.obj [("expression", .str "2 + 2")])).1 (by decide), ?_⟩
  have h2 := executeTool_never_throws_wellformed.2 boomHandlers trivialEnv "boom"
    (.obj []) boomHandler ⟨true, "kaboom"⟩ [] (by rfl) (by rfl)
  simpa [errMsgOf] using h2

/-- C2: every invocation produced by the text tool-call extractor — across
all three syntaxes — carries a name that is in the Tool Registry's
registered name list; matches referencing unregistered names contribute
nothing. -/
theorem parseTextToolCalls_names_registered :
    ∀ content tc, tc ∈ parseTextToolCalls content → tc.name ∈ getRegisteredTools := by
  intro content tc h
  unfold parseTextToolCalls at h
  dsimp only at h
  simp only [List.mem_append] at h
  rcases h with (h | h) | h <;>
    (obtain ⟨m, -, heq⟩ := List.mem_filterMap.mp h;
     repeat' split at heq) <;>
    first
      | (injection heq with heq; subst heq; clear h; simp_all)
      | cases heq

theorem parseTextToolCalls_names_registered_witness :
    TextToolCall.name ⟨"calculator", .obj []⟩ ∈ getRegisteredTools := by
  apply parseTextToolCalls_names_registered "calculator[ARGS]\x7b\x7d and <tool_call>bad json</tool_call>"
  have h : parseTextToolCalls "calculator[ARGS]\x7b\x7d and <tool_call>bad json</tool_call>" =
      [⟨"calculator", .obj []⟩] := rfl
  rw [h]
  exact List.mem_singleton_self _

/-- C3: the per-round tool-execution loop appends, for each executed call,
exactly one `tool`-role transcript message whose content is the plain result
text (`result` on success, `Error: <error>` on failure), while the decorated
`<!--TOOL_START...-->` wrapper goes only to the client byte stream. -/
theorem execToolCalls_tool_messages_plain :
    ∀ (env : Env) (calls : List TextToolCall) (msgs : List ChatMsg) (stream : List String),
      execToolCalls env msgs stream calls =
        (msgs ++ calls.map (fun tc => ⟨"tool", toolResultText env tc.name tc.args⟩),
         stream ++ calls.map (toolMarkerText env)) := by
  intro env calls
  induction calls with
  | nil => intro msgs stream; simp [execToolCalls]
  | cons tc rest ih =>
    intro msgs stream
    simp only [execToolCalls, List.map_cons]
    rw [ih]
    simp

/-- C8: the calculator returns `2 + 2 = 4` for `2 + 2`; any expression whose
rewritten form fails the character allow-list (such as `require('fs')`) is
rejected with the invalid-characters error, and any allow-listed expression
evaluating to a non-finite number is rejected with the not-a-valid-number
error — in both cases with no external operation. -/
theorem calculatorHandler_allowlist_and_result :
    (∀ env, calculatorHandler env (.obj [("expression", .str "2 + 2")]) =
      (.ok ⟨true, some "2 + 2 = 4", none⟩, [])) ∧
    (∀ env args s, args.getField "expression" = some (.str s) → s ≠ "" →
      calcAllowed (calcRewrite s) = false →
      calculatorHandler env args =
        (.ok ⟨false, none, some "Invalid characters in expression"⟩, [])) ∧
    (∀ env args s v, args.getField "expression" = some (.str s) → s ≠ "" →
      calcAllowed (calcRewrite s) = true →
      calcEval (calcRewrite s).toList = some v → jsNumFinite v = false →
      calculatorHandler env args =
        (.ok ⟨false, none, some "Expression did not evaluate to a valid number"⟩, [])) := by
  refine ⟨fun env => by dsimp only [calculatorHandler]; decide, ?_, ?_⟩
  · intro env args s hf hs hall
    unfold calculatorHandler
    rw [hf]
    dsimp only
    split
    · rename_i hcond
      simp [jsTruthyOpt, jsTruthy, hs] at hcond
    · simp [safeEvaluate, hall]
  · intro env args s v hf hs hall heval hfin
    unfold calculatorHandler
    rw [hf]
    dsimp only
    split
    · rename_i hcond
      simp [jsTruthyOpt, jsTruthy, hs] at hcond
    · simp only [String.toList] at heval
      simp [safeEvaluate, hall, heval, hfin]

theorem calculatorHandler_allowlist_and_result_witness :
    calculatorHandler trivialEnv (.obj [("expression", .str "2 + 2")]) =
      (.ok ⟨true, some "2 + 2 = 4", none⟩, []) ∧
    calculatorHandler trivialEnv (.obj [("expression", .str "require('fs')")]) =
      (.ok ⟨false, none, some "Invalid characters in expression"⟩, []) ∧
    calculatorHandler trivialEnv (.obj [("expression", .str "1 / 0")]) =
      (.ok ⟨false, none, some "Expression did not evaluate to a valid number"⟩, []) := by
  refine ⟨calculatorHandler_allowlist_and_result.1 trivialEnv, ?_, ?_⟩
  · exact calculatorHandler_allowlist_and_result.2.1 trivialEnv _ "require('fs')"
      rfl (by decide) (by decide)
  · exact calculatorHandler_allowlist_and_result.2.2 trivialEnv _ "1 / 0" (.inf true)
      rfl (by decide) (by decide) (by decide) (by decide)

/-- C7: a read or write request whose path resolves outside every allowed
directory prefix returns the access-denied failure with an empty filesystem
trace: no stat, read, mkdir or write is performed. -/
theorem fileHandlers_access_denied_no_fs :
    ∀ env args p,
      args.getField "path" = some (.str p) → p ≠ "" → isPathAllowed env p = false →
      fileReadHandler env args = (.ok ⟨false, none, some (accessDeniedMsg env)⟩, []) ∧
      (∀ c, args.getField "content" = some (.str c) →
        fileWriteHandler env args = (.ok ⟨false, none, some (accessDeniedMsg env)⟩, [])) := by
  intro env args p hf hs hallow
  constructor
  · unfold fileReadHandler
    rw [hf]
    dsimp only
    split
    · rename_i hcond
      simp [jsTruthyOpt, jsTruthy, hs] at hcond
    · simp [hallow]
  · intro c hc
    unfold fileWriteHandler
    rw [hf, hc]
    dsimp only
    split
    · rename_i hcond
      simp [jsTruthyOpt, jsTruthy, hs] at hcond
    · split
      · rename_i hcond
        simp at hcond
      · simp [hallow]

theorem fileHandlers_access_denied_no_fs_witness :
    fileReadHandler trivialEnv
        (.obj [("path", .str "/etc/passwd"), ("content", .str "hi")]) =
      (.ok ⟨false, none, some (accessDeniedMsg trivialEnv)⟩, []) ∧
    fileWriteHandler trivialEnv
        (.obj [("path", .str "/etc/passwd"), ("content", .str "hi")]) =
      (.ok ⟨false, none, some (accessDeniedMsg trivialEnv)⟩, []) := by
  have h := fileHandlers_access_denied_no_fs trivialEnv
    (.obj [("path", .str "/etc/passwd"), ("content", .str "hi")]) "/etc/passwd"
    rfl (by decide) (by decide)
  exact ⟨h.1, h.2 "hi" rfl⟩

/-- C9: when the geocoding response succeeds but carries no results, the
weather handler fails with `Location not found: "<location>"` and its
request trace contains only the geocoding URL — the current-conditions
request is never issued. -/
theorem weatherHandler_location_not_found_no_forecast :
    ∀ env args loc st stt ct gbody geoData,
      args.getField "location" = some (.str loc) → loc ≠ "" →
      env.fetch (weatherGeoUrl loc) = .resp true st stt ct gbody →
      jsonParse gbody = some geoData →
      (geoData.getField "results" = none ∨
        ∃ v, geoData.getField "results" = some v ∧
          (jsTruthy v = false ∨ jsLenIsZero v = true)) →
      weatherHandler env args =
        (.ok ⟨false, none, some ("Location not found: \"" ++ loc ++ "\"")⟩,
         [weatherGeoUrl loc]) := by
  intro env args loc st stt ct gbody geoData hf hs hfetch hparse hmiss
  have hm : (match geoData.getField "results" with
      | none => true
      | some v => !(jsTruthy v) || jsLenIsZero v) = true := by
    rcases hmiss with h | ⟨v, hv, h | h⟩
    · rw [h]
    · rw [hv]; simp [h]
    · rw [hv]; simp [h]
  unfold weatherHandler
  rw [hf]
  dsimp only
  split
  · rename_i hcond
    simp [jsTruthyOpt, jsTruthy, hs] at hcond
  · dsimp only [jsDisplayOpt, jsDisplay]
    rw [hfetch]
    dsimp only
    rw [hparse]
    dsimp only
    rw [hm]
    simp

theorem weatherHandler_location_not_found_no_forecast_witness :
    weatherHandler geoMissEnv (.obj [("location", .str "Nowhereville")]) =
      (.ok ⟨false, none, some "Location not found: \"Nowhereville\""⟩,
       [weatherGeoUrl "Nowhereville"]) := by
  have h := weatherHandler_location_not_found_no_forecast geoMissEnv
    (.obj [("location", .str "Nowhereville")]) "Nowhereville"
    200 "OK" "application/json" "\x7b\"results\": []\x7d" (.obj [("results", .arr [])])
    rfl (by decide) rfl rfl
    (Or.inr ⟨.arr [], rfl, Or.inr rfl⟩)
  rw [h]
  decide

theorem getLast?_cons_of_ne_nil {α : Type} (a : α) (l : List α) (h : l ≠ []) :
    (a :: l).getLast? = l.getLast? := by
  cases l with
  | nil => exact absurd rfl h
  | cons b t => rfl

theorem routeLoopAux_length_le (chat : ModelOracle) (env : Env) (et : Bool) :
    ∀ fuel msgs, (routeLoopAux chat env et fuel msgs).rounds.length ≤ fuel := by
  intro fuel
  induction fuel with
  | zero => intro msgs; simp [routeLoopAux]
  | succ n ih =>
    intro msgs
    unfold routeLoopAux
    dsimp only
    repeat' split
    all_goals simp only [List.length_cons, List.length_singleton, List.length_nil]
    all_goals first
      | omega
      | (exact Nat.succ_le_succ (ih _))

theorem part3LoopAux_one_rounds (chat : ModelOracle) (env : Env) (et : Bool) :
    ∀ msgs, (part3LoopAux chat env et 1 msgs).rounds =
      [⟨false, msgs ++ [⟨"user", FORCE_RESPONSE_MESSAGE⟩]⟩] := by
  intro msgs
  unfold part3LoopAux
  dsimp only
  repeat' split
  all_goals simp_all [part3LoopAux]

theorem part3LoopAux_length_le (chat : ModelOracle) (env : Env) (et : Bool) :
    ∀ fuel msgs, (part3LoopAux chat env et fuel msgs).rounds.length ≤ fuel := by
  intro fuel
  induction fuel with
  | zero => intro msgs; simp [part3LoopAux]
  | succ n ih =>
    intro msgs
    unfold part3LoopAux
    dsimp only
    repeat' split
    all_goals simp only [List.length_cons, List.length_singleton, List.length_nil]
    all_goals first
      | omega
      | (exact Nat.succ_le_succ (ih _))

theorem part3LoopAux_full_last (chat : ModelOracle) (env : Env) (et : Bool) :
    ∀ fuel msgs, 0 < fuel →
      (part3LoopAux chat env et fuel msgs).rounds.length = fuel →
      ∃ r, (part3LoopAux chat env et fuel msgs).rounds.getLast? = some r ∧
        r.toolsPassed = false ∧
        r.msgsAtCall.getLast? = some ⟨"user", FORCE_RESPONSE_MESSAGE⟩ := by
  intro fuel
  induction fuel with
  | zero => intro msgs h; exact absurd h (by simp)
  | succ n ih =>
    intro msgs _ hlen
    by_cases hn : n = 0
    · subst hn
      rw [part3LoopAux_one_rounds chat env et msgs]
      refine ⟨_, rfl, rfl, ?_⟩
      exact List.getLast?_concat _
    · -- more than one round remains: the loop must have recursed
      revert hlen
      unfold part3LoopAux
      dsimp only
      rw [if_neg hn]
      repeat' split
      all_goals intro hlen
      all_goals dsimp only at hlen ⊢
      all_goals first
        | (exfalso; simp only [List.length_singleton] at hlen; omega)
        | (have hlen' := Nat.succ_injective hlen;
           obtain ⟨r, hr1, hr2, hr3⟩ := ih _ (Nat.pos_of_ne_zero hn) hlen';
           refine ⟨r, ?_, hr2, hr3⟩;
           rw [getLast?_cons_of_ne_nil _ _
             (fun hnil => hn (by rw [hnil] at hlen'; simpa using hlen'.symm))];
           exact hr1)

/-- C1 (amended): for every model behavior, both orchestration-loop
revisions perform at most their configured `MAX_TOOL_ITERATIONS` model-call
rounds; in the forced-finalization revision (cap 5), whenever the budget is
fully used the final permitted round issues its model call with tools
disabled and with the forced-finalization user message appended to the
working transcript immediately before that call.  (In the
`src/app/api/chat/route.ts` revision — cap 10 — the final round is an
ordinary round: see the counterexample.) -/
theorem chat_loop_bound_and_forced_finalization :
    ∀ (chat : ModelOracle) (env : Env) (msgs : List ChatMsg),
      (runChatRoute chat env msgs true).rounds.length ≤ MAX_TOOL_ITERATIONS ∧
      (runChatPart3 chat env msgs true).rounds.length ≤ MAX_TOOL_ITERATIONS_FORCED ∧
      ((runChatPart3 chat env msgs true).rounds.length = MAX_TOOL_ITERATIONS_FORCED →
        ∃ r, (runChatPart3 chat env msgs true).rounds.getLast? = some r ∧
          r.toolsPassed = false ∧
          r.msgsAtCall.getLast? = some ⟨"user", FORCE_RESPONSE_MESSAGE⟩) := by
  intro chat env msgs
  refine ⟨routeLoopAux_length_le chat env true _ _,
    part3LoopAux_length_le chat env true _ _, ?_⟩
  intro hlen
  exact part3LoopAux_full_last chat env true _ _ (by decide) hlen

set_option maxRecDepth 100000 in
set_option maxHeartbeats 4000000 in
theorem chat_loop_bound_and_forced_finalization_witness :
    (runChatRoute alwaysToolChat trivialEnv [⟨"user", "hi"⟩] true).rounds.length ≤
      MAX_TOOL_ITERATIONS ∧
    (runChatPart3 alwaysToolChat trivialEnv [⟨"user", "hi"⟩] true).rounds.length ≤
      MAX_TOOL_ITERATIONS_FORCED ∧
    ∃ r, (runChatPart3 alwaysToolChat trivialEnv [⟨"user", "hi"⟩] true).rounds.getLast? =
        some r ∧
      r.toolsPassed = false ∧
      r.msgsAtCall.getLast? = some ⟨"user", FORCE_RESPONSE_MESSAGE⟩ := by
  have h := chat_loop_bound_and_forced_finalization alwaysToolChat trivialEnv
    [⟨"user", "hi"⟩]
  exact ⟨h.1, h.2.1, h.2.2 (by decide)⟩

set_option maxRecDepth 100000 in
set_option maxHeartbeats 4000000 in
theorem routeLoop_final_round_keeps_tools_enabled :
    (runChatRoute alwaysToolChat trivialEnv [⟨"user", "hi"⟩] true).rounds.length =
      MAX_TOOL_ITERATIONS ∧
    ((runChatRoute alwaysToolChat trivialEnv [⟨"user", "hi"⟩] true).rounds.getLast?.map
      (fun r => r.toolsPassed)) = some true ∧
    ((runChatRoute alwaysToolChat trivialEnv [⟨"user", "hi"⟩] true).rounds.getLast?.map
      (fun r => decide ((⟨"user", FORCE_RESPONSE_MESSAGE⟩ : ChatMsg) ∈ r.msgsAtCall))) =
      some false := by
  decide

theorem thinkAll_foldl_init (cs : List Chunk) :
    ∀ a, cs.foldl (fun x c => x ++ c.thinking) a = a ++ thinkAll cs := by
  induction cs with
  | nil => intro a; simp [thinkAll]
  | cons c cs ih =>
    intro a
    simp only [List.foldl_cons, thinkAll]
    rw [ih, ih ("" ++ c.thinking)]
    simp [String.append_assoc]

theorem thinkAll_eq_empty (cs : List Chunk) (h : ∀ c ∈ cs, c.thinking = "") :
    thinkAll cs = "" := by
  induction cs with
  | nil => rfl
  | cons c cs ih =>
    simp only [thinkAll, List.foldl_cons]
    rw [h c (List.mem_cons_self _ _)]
    exact ih (fun d hd => h d (List.mem_cons_of_mem _ hd))

theorem thinkAll_append (l1 l2 : List Chunk) :
    thinkAll (l1 ++ l2) = thinkAll l1 ++ thinkAll l2 := by
  simp only [thinkAll, List.foldl_append]
  rw [thinkAll_foldl_init l2 (List.foldl (fun x c => x ++ c.thinking) "" l1)]
  rfl

theorem contentsOf_append (l1 l2 : List Chunk) :
    contentsOf (l1 ++ l2) = contentsOf l1 ++ contentsOf l2 := by
  simp [contentsOf, List.filter_append]

theorem contentsOf_eq_nil (l : List Chunk) (h : ∀ c ∈ l, c.content = "") :
    contentsOf l = [] := by
  induction l with
  | nil => rfl
  | cons c cs ih =>
    simp only [contentsOf, List.map_cons, List.filter_cons]
    rw [h c (List.mem_cons_self _ _)]
    simpa [contentsOf] using ih (fun d hd => h d (List.mem_cons_of_mem _ hd))

theorem foldl_processChunk_pre (pre : List Chunk) :
    ∀ st : RoundProc, (∀ c ∈ pre, c.content = "") →
      (pre.foldl processChunk st).out = st.out ∧
      (pre.foldl processChunk st).thinkingSent = st.thinkingSent ∧
      (pre.foldl processChunk st).fullThinking = st.fullThinking ++ thinkAll pre := by
  induction pre with
  | nil => intro st _; simp [thinkAll]
  | cons c cs ih =>
    intro st h
    have hc : c.content = "" := h c (List.mem_cons_self _ _)
    have hrest : ∀ d ∈ cs, d.content = "" := fun d hd => h d (List.mem_cons_of_mem _ hd)
    simp only [List.foldl_cons]
    have hstep : (processChunk st c).out = st.out ∧
        (processChunk st c).thinkingSent = st.thinkingSent ∧
        (processChunk st c).fullThinking = st.fullThinking ++ c.thinking := by
      unfold processChunk
      rw [hc]
      cases c.tool_calls <;> by_cases ht : c.thinking = "" <;> simp [ht]
    obtain ⟨ho, hs, hf⟩ := ih (processChunk st c) hrest
    refine ⟨by rw [ho, hstep.1], by rw [hs, hstep.2.1], ?_⟩
    have hTA : thinkAll (c :: cs) = c.thinking ++ thinkAll cs := by
      simp only [thinkAll, List.foldl_cons]
      rw [thinkAll_foldl_init cs ("" ++ c.thinking)]
      simp [thinkAll]
    rw [hf, hstep.2.2, hTA]
    simp [String.append_assoc]

theorem foldl_processChunk_flushed (post : List Chunk) :
    ∀ st : RoundProc, (∀ c ∈ post, c.thinking = "") →
      (st.thinkingSent = true ∨ st.fullThinking = "") →
      (post.foldl processChunk st).out = st.out ++ contentsOf post ∧
      (post.foldl processChunk st).thinkingSent = st.thinkingSent ∧
      (post.foldl processChunk st).fullThinking = st.fullThinking := by
  induction post with
  | nil => intro st _ _; simp [contentsOf]
  | cons c cs ih =>
    intro st h hinv
    have hc : c.thinking = "" := h c (List.mem_cons_self _ _)
    have hrest : ∀ d ∈ cs, d.thinking = "" := fun d hd => h d (List.mem_cons_of_mem _ hd)
    simp only [List.foldl_cons]
    by_cases hcc : c.content = ""
    · have hstep : (processChunk st c).out = st.out ∧
          (processChunk st c).thinkingSent = st.thinkingSent ∧
          (processChunk st c).fullThinking = st.fullThinking := by
        unfold processChunk
        rw [hc, hcc]
        cases c.tool_calls <;> simp
      obtain ⟨ho, hs, hf⟩ := ih (processChunk st c) hrest
        (by rw [hstep.2.1, hstep.2.2]; exact hinv)
      refine ⟨?_, by rw [hs, hstep.2.1], by rw [hf, hstep.2.2]⟩
      rw [ho, hstep.1]
      simp [contentsOf, hcc]
    · have hstep : (processChunk st c).out = st.out ++ [c.content] ∧
          (processChunk st c).thinkingSent = st.thinkingSent ∧
          (processChunk st c).fullThinking = st.fullThinking := by
        unfold processChunk
        rw [hc]
        rcases hinv with h1 | h1 <;> cases c.tool_calls <;> simp [hcc, h1]
      obtain ⟨ho, hs, hf⟩ := ih (processChunk st c) hrest
        (by rw [hstep.2.1, hstep.2.2]; exact hinv)
      refine ⟨?_, by rw [hs, hstep.2.1], by rw [hf, hstep.2.2]⟩
      rw [ho, hstep.1]
      simp [contentsOf, hcc, List.append_assoc]

theorem foldl_processChunk_pending (post : List Chunk) :
    ∀ st : RoundProc, (∀ c ∈ post, c.thinking = "") →
      st.thinkingSent = false → st.fullThinking ≠ "" →
      (post.foldl processChunk st).fullThinking = st.fullThinking ∧
      (if contentsOf post = [] then
        (post.foldl processChunk st).out = st.out ∧
          (post.foldl processChunk st).thinkingSent = false
       else
        (post.foldl processChunk st).out =
            st.out ++ [thinkMarkerOf st.fullThinking] ++ contentsOf post ∧
          (post.foldl processChunk st).thinkingSent = true) := by
  induction post with
  | nil => intro st _ hs _; simp [contentsOf, hs]
  | cons c cs ih =>
    intro st h hsent hthink
    have hc : c.thinking = "" := h c (List.mem_cons_self _ _)
    have hrest : ∀ d ∈ cs, d.thinking = "" := fun d hd => h d (List.mem_cons_of_mem _ hd)
    simp only [List.foldl_cons]
    by_cases hcc : c.content = ""
    · have hstep : (processChunk st c).out = st.out ∧
          (processChunk st c).thinkingSent = st.thinkingSent ∧
          (processChunk st c).fullThinking = st.fullThinking := by
        unfold processChunk
        rw [hc, hcc]
        cases c.tool_calls <;> simp
      have hout : contentsOf (c :: cs) = contentsOf cs := by simp [contentsOf, hcc]
      rw [hout]
      obtain ⟨hf, hrest2⟩ := ih (processChunk st c) hrest
        (by rw [hstep.2.1]; exact hsent) (by rw [hstep.2.2]; exact hthink)
      refine ⟨by rw [hf, hstep.2.2], ?_⟩
      rw [hstep.2.2] at hrest2
      by_cases hnil : contentsOf cs = []
      · rw [if_pos hnil] at hrest2 ⊢
        exact ⟨by rw [hrest2.1, hstep.1], hrest2.2⟩
      · rw [if_neg hnil] at hrest2 ⊢
        exact ⟨by rw [hrest2.1, hstep.1], hrest2.2⟩
    · have hstep : (processChunk st c).out =
            st.out ++ [thinkMarkerOf st.fullThinking] ++ [c.content] ∧
          (processChunk st c).thinkingSent = true ∧
          (processChunk st c).fullThinking = st.fullThinking := by
        unfold processChunk
        rw [hc]
        cases c.tool_calls <;> simp [hcc, hsent, hthink]
      obtain ⟨ho, hs, hf⟩ := foldl_processChunk_flushed cs (processChunk st c) hrest
        (Or.inl hstep.2.1)
      have hout : contentsOf (c :: cs) = c.content :: contentsOf cs := by
        simp [contentsOf, hcc]
      rw [hout]
      refine ⟨by rw [hf, hstep.2.2], ?_⟩
      rw [if_neg (by simp)]
      refine ⟨?_, by rw [hs, hstep.2.1]⟩
      rw [ho, hstep.1]
      simp [List.append_assoc]

/-- C5 (amended): in a round whose thinking chunks all arrive before the
first content chunk, the client-visible output is exactly the round's
accumulated thinking emitted as one block wrapped in <think>...</think>
(omitted when there is no thinking), followed by the content tokens in
order — the block sits immediately before the first content token, or is
flushed at stream end when no content followed.  The unamended claim —
that this holds for every arrival order, with the block carrying the
whole round's accumulated thinking — is false: thinking that arrives
after the first content token is buffered but never emitted (see the
counterexample on lateThinkChunks). -/
theorem processChunks_single_think_block (pre post : List Chunk)
    (hpre : ∀ c ∈ pre, c.content = "") (hpost : ∀ c ∈ post, c.thinking = "") :
    (processChunks (pre ++ post)).out =
      (if thinkAll (pre ++ post) = "" then []
       else [thinkMarkerOf (thinkAll (pre ++ post))]) ++ contentsOf (pre ++ post) := by
  have hTA : thinkAll (pre ++ post) = thinkAll pre := by
    rw [thinkAll_append, thinkAll_eq_empty post hpost]
    simp
  have hCO : contentsOf (pre ++ post) = contentsOf post := by
    rw [contentsOf_append, contentsOf_eq_nil pre hpre]
    simp
  obtain ⟨ho1, hs1, hf1⟩ := foldl_processChunk_pre pre {} hpre
  have ho1' : (pre.foldl processChunk {}).out = [] := ho1
  have hs1' : (pre.foldl processChunk {}).thinkingSent = false := hs1
  have hf1' : (pre.foldl processChunk {}).fullThinking = thinkAll pre := by
    rw [hf1]
    simp
  unfold processChunks
  dsimp only
  rw [hTA, hCO, List.foldl_append]
  by_cases hT : thinkAll pre = ""
  · obtain ⟨ho2, hs2, hf2⟩ :=
      foldl_processChunk_flushed post (pre.foldl processChunk {}) hpost
        (Or.inr (by rw [hf1', hT]))
    have hcond : ((post.foldl processChunk (pre.foldl processChunk {})).fullThinking ≠ ""
        && !(post.foldl processChunk (pre.foldl processChunk {})).thinkingSent) = false := by
      rw [hf2, hf1', hT]
      simp
    rw [hcond]
    simp only [Bool.false_eq_true, if_false, if_pos hT]
    rw [ho2, ho1']
  · obtain ⟨hf2, hrest⟩ :=
      foldl_processChunk_pending post (pre.foldl processChunk {}) hpost hs1'
        (by rw [hf1']; exact hT)
    by_cases hnil : contentsOf post = []
    · rw [if_pos hnil] at hrest
      obtain ⟨ho2, hs2⟩ := hrest
      have hcond : ((post.foldl processChunk (pre.foldl processChunk {})).fullThinking ≠ ""
          && !(post.foldl processChunk (pre.foldl processChunk {})).thinkingSent) = true := by
        rw [hf2, hf1', hs2]
        simp [hT]
      rw [hcond]
      simp only [if_true, if_neg hT]
      rw [hnil, ho2, ho1', hf2, hf1']
      rfl
    · rw [if_neg hnil] at hrest
      obtain ⟨ho2, hs2⟩ := hrest
      have hcond : ((post.foldl processChunk (pre.foldl processChunk {})).fullThinking ≠ ""
          && !(post.foldl processChunk (pre.foldl processChunk {})).thinkingSent) = false := by
        rw [hs2]
        simp
      rw [hcond]
      simp only [Bool.false_eq_true, if_false, if_neg hT]
      rw [ho2, ho1', hf1']
      simp

theorem processChunks_single_think_block_witness :
    (processChunks
        ([{ content := "", thinking := "A", tool_calls := none }] ++
         [{ content := "x", thinking := "", tool_calls := none }])).out =
      (if thinkAll
            ([{ content := "", thinking := "A", tool_calls := none }] ++
             [{ content := "x", thinking := "", tool_calls := none }]) = "" then []
       else [thinkMarkerOf (thinkAll
            ([{ content := "", thinking := "A", tool_calls := none }] ++
             [{ content := "x", thinking := "", tool_calls := none }]))]) ++
        contentsOf
          ([{ content := "", thinking := "A", tool_calls := none }] ++
           [{ content := "x", thinking := "", tool_calls := none }]) :=
  processChunks_single_think_block
    [{ content := "", thinking := "A", tool_calls := none }]
    [{ content := "x", thinking := "", tool_calls := none }]
    (by decide) (by decide)

/-- C5 counterexample: with thinking "A", then content "x", then thinking
"B", the round accumulates thinking "AB" but the client-visible output is
["<think>A</think>\n\n", "x"]: the emitted block carries only the thinking
that preceded the first content token, and no element of the output equals
the <think> wrapper of the round's full accumulated thinking — the late
thinking is silently dropped, contradicting the claim that the accumulated
thinking of the round is emitted as one block. -/
theorem processChunks_drops_late_thinking :
    (processChunks lateThinkChunks).fullThinking = "AB" ∧
    (processChunks lateThinkChunks).out = ["<think>A</think>\n\n", "x"] ∧
    ((processChunks lateThinkChunks).out.all
      (fun s => s ≠ thinkMarkerOf (processChunks lateThinkChunks).fullThinking)) = true := by
  refine ⟨by decide, by decide, by decide⟩

theorem dropWhile_eq_self_of_head {α : Type} (p : α → Bool) (l : List α)
    (h : ∀ c, l.head? = some c → ¬ p c) : l.dropWhile p = l := by
  cases l with
  | nil => rfl
  | cons a t => simp [List.dropWhile_cons, h a rfl]

theorem dropWhile_head_not {α : Type} (p : α → Bool) (l : List α) :
    ∀ c, (l.dropWhile p).head? = some c → ¬ p c := by
  induction l with
  | nil => intro c hc; cases hc
  | cons a t ih =>
    intro c hc
    by_cases ha : p a
    · rw [List.dropWhile_cons, if_pos ha] at hc
      exact ih c hc
    · rw [List.dropWhile_cons, if_neg ha] at hc
      injection hc with hc
      subst hc
      exact ha

theorem dropWhile_getLast?_of_ne_nil {α : Type} (p : α → Bool) (l : List α)
    (h : l.dropWhile p ≠ []) : (l.dropWhile p).getLast? = l.getLast? := by
  induction l with
  | nil => simp at h
  | cons a t ih =>
    by_cases ha : p a
    · rw [List.dropWhile_cons, if_pos ha] at h ⊢
      have ht : t ≠ [] := by
        intro ht0
        rw [ht0] at h
        simp at h
      rw [ih h, getLast?_cons_of_ne_nil a t ht]
    · rw [List.dropWhile_cons, if_neg ha]

theorem jsTrimL_eq_self (cs : List Char)
    (h1 : ∀ c, cs.head? = some c → ¬ jsIsWs c)
    (h2 : ∀ c, cs.getLast? = some c → ¬ jsIsWs c) : jsTrimL cs = cs := by
  unfold jsTrimL
  rw [dropWhile_eq_self_of_head _ _ h1]
  rw [dropWhile_eq_self_of_head _ _
    (fun c hc => h2 c (by rw [List.head?_reverse] at hc; exact hc))]
  exact List.reverse_reverse cs

theorem jsTrimL_getLast_not_ws (cs : List Char) :
    ∀ c, (jsTrimL cs).getLast? = some c → ¬ jsIsWs c := by
  intro c hc
  unfold jsTrimL at hc
  rw [List.getLast?_reverse] at hc
  exact dropWhile_head_not _ _ c hc

theorem jsTrimL_head_not_ws (cs : List Char) :
    ∀ c, (jsTrimL cs).head? = some c → ¬ jsIsWs c := by
  intro c hc
  unfold jsTrimL at hc
  rw [List.head?_reverse] at hc
  by_cases hne : (cs.dropWhile (jsIsWs ·)).reverse.dropWhile (jsIsWs ·) = []
  · rw [hne] at hc
    cases hc
  · rw [dropWhile_getLast?_of_ne_nil _ _ hne, List.getLast?_reverse] at hc
    exact dropWhile_head_not _ _ c hc

theorem mem_of_mem_jsTrimL (cs : List Char) (c : Char) (h : c ∈ jsTrimL cs) : c ∈ cs := by
  unfold jsTrimL at h
  rw [List.mem_reverse] at h
  have h2 := (List.dropWhile_sublist _).subset h
  rw [List.mem_reverse] at h2
  exact (List.dropWhile_sublist _).subset h2

theorem firstLineL_no_newline (cs : List Char) : ∀ c ∈ firstLineL cs, c ≠ '\n' := by
  intro c hc
  have := List.mem_takeWhile_imp hc
  simpa using this

theorem firstLineL_eq_self (cs : List Char) (h : ∀ c ∈ cs, c ≠ '\n') :
    firstLineL cs = cs :=
  List.takeWhile_eq_self_iff.mpr (fun a ha => by simpa using h a ha)

theorem splitWsGo_cons_ws_true (c : Char) (cs acc : List Char) (hw : jsIsWs c = true) :
    splitWsGo (c :: cs) acc true = splitWsGo cs acc true := by
  simp [splitWsGo, hw]

theorem splitWsGo_cons_ws_false (c : Char) (cs acc : List Char) (hw : jsIsWs c = true) :
    splitWsGo (c :: cs) acc false = acc.reverse :: splitWsGo cs [] true := by
  simp [splitWsGo, hw]

theorem splitWsGo_cons_not_ws (c : Char) (cs acc : List Char) (inRun : Bool)
    (hw : jsIsWs c = false) :
    splitWsGo (c :: cs) acc inRun = splitWsGo cs (c :: acc) false := by
  simp [splitWsGo, hw]

theorem splitWsGo_tokens_not_ws (cs : List Char) :
    ∀ (acc : List Char) (inRun : Bool), (∀ ch ∈ acc, ¬ jsIsWs ch) →
      ∀ t ∈ splitWsGo cs acc inRun, ∀ ch ∈ t, ¬ jsIsWs ch := by
  induction cs with
  | nil =>
    intro acc inRun hacc t ht ch hch
    simp only [splitWsGo, List.mem_singleton] at ht
    subst ht
    exact hacc ch (List.mem_reverse.mp hch)
  | cons c cs ih =>
    intro acc inRun hacc t ht ch hch
    by_cases hw : jsIsWs c = true
    · cases inRun with
      | true =>
        rw [splitWsGo_cons_ws_true _ _ _ hw] at ht
        exact ih acc true hacc t ht ch hch
      | false =>
        rw [splitWsGo_cons_ws_false _ _ _ hw] at ht
        rcases List.mem_cons.mp ht with h1 | h1
        · subst h1
          exact hacc ch (List.mem_reverse.mp hch)
        · exact ih [] true (fun x hx => absurd hx (List.not_mem_nil x)) t h1 ch hch
    · rw [splitWsGo_cons_not_ws _ _ _ _ (by simpa using hw)] at ht
      refine ih (c :: acc) false ?_ t ht ch hch
      intro x hx
      rcases List.mem_cons.mp hx with h1 | h1
      · subst h1
        exact hw
      · exact hacc x h1

theorem splitWsGo_tokens_ne_nil (cs : List Char) :
    ∀ (acc : List Char) (inRun : Bool),
      (∀ c, cs.getLast? = some c → ¬ jsIsWs c) →
      (cs = [] → acc ≠ []) →
      (inRun = false → acc = [] → ∀ c, cs.head? = some c → ¬ jsIsWs c) →
      ∀ t ∈ splitWsGo cs acc inRun, t ≠ [] := by
  induction cs with
  | nil =>
    intro acc inRun h1 h2 h3 t ht
    simp only [splitWsGo, List.mem_singleton] at ht
    subst ht
    simpa using h2 rfl
  | cons c cs ih =>
    intro acc inRun h1 h2 h3 t ht
    have h1' : ∀ d, cs.getLast? = some d → ¬ jsIsWs d := by
      intro d hd
      cases cs with
      | nil => cases hd
      | cons e es =>
        exact h1 d (by rw [getLast?_cons_of_ne_nil c (e :: es) (List.cons_ne_nil e es)]; exact hd)
    by_cases hw : jsIsWs c = true
    · have hcs : cs ≠ [] := by
        intro h0
        subst h0
        exact h1 c rfl hw
      cases inRun with
      | true =>
        rw [splitWsGo_cons_ws_true _ _ _ hw] at ht
        exact ih acc true h1' (fun h0 => absurd h0 hcs) (fun hf => nomatch hf) t ht
      | false =>
        rw [splitWsGo_cons_ws_false _ _ _ hw] at ht
        rcases List.mem_cons.mp ht with h0 | h0
        · subst h0
          have hacc : acc ≠ [] := by
            intro ha
            exact h3 rfl ha c rfl hw
          simpa using hacc
        · exact ih [] true h1' (fun h0 => absurd h0 hcs) (fun hf => nomatch hf) t h0
    · rw [splitWsGo_cons_not_ws _ _ _ _ (by simpa using hw)] at ht
      exact ih (c :: acc) false h1' (fun _ => List.cons_ne_nil c acc)
        (fun _ ha => absurd ha (List.cons_ne_nil c acc)) t ht

theorem splitWsGo_append_token (t : List Char) :
    ∀ (cs acc : List Char), (∀ ch ∈ t, ¬ jsIsWs ch) →
      splitWsGo (t ++ cs) acc false = splitWsGo cs (t.reverse ++ acc) false := by
  induction t with
  | nil => intro cs acc _; simp
  | cons c t ih =>
    intro cs acc h
    have hw : jsIsWs c = false := by
      have := h c (List.mem_cons_self _ _)
      simpa using this
    rw [List.cons_append, splitWsGo_cons_not_ws _ _ _ _ hw]
    rw [ih cs (c :: acc) (fun ch hch => h ch (List.mem_cons_of_mem _ hch))]
    simp

theorem splitWsGo_true_eq_false (cs : List Char)
    (h : ∀ c, cs.head? = some c → ¬ jsIsWs c) :
    splitWsGo cs [] true = splitWsGo cs [] false := by
  cases cs with
  | nil => rfl
  | cons c cs =>
    have hw : jsIsWs c = false := by simpa using h c rfl
    rw [splitWsGo_cons_not_ws _ _ _ _ hw, splitWsGo_cons_not_ws _ _ _ _ hw]

theorem head?_intercalate_cons (t : List Char) (ts : List (List Char)) (h : t ≠ []) :
    (List.intercalate [' '] (t :: ts)).head? = t.head? := by
  cases ts with
  | nil => simp [List.intercalate]
  | cons t2 ts2 =>
    have hI : List.intercalate [' '] (t :: t2 :: ts2) =
        t ++ ([' '] ++ List.intercalate [' '] (t2 :: ts2)) := by
      simp [List.intercalate, List.intersperse]
    rw [hI]
    cases t with
    | nil => exact absurd rfl h
    | cons c t' => rfl

theorem intercalate_ne_nil (t : List Char) (ts : List (List Char)) (h : t ≠ []) :
    List.intercalate [' '] (t :: ts) ≠ [] := by
  intro h0
  have hh := congrArg List.head? h0
  rw [head?_intercalate_cons t ts h] at hh
  cases t with
  | nil => exact h rfl
  | cons c t' => exact Option.noConfusion hh

theorem getLast?_intercalate_cons (ts : List (List Char)) :
    ∀ t, (∀ u ∈ t :: ts, u ≠ []) →
      ∃ u ∈ t :: ts, (List.intercalate [' '] (t :: ts)).getLast? = u.getLast? := by
  induction ts with
  | nil =>
    intro t _
    exact ⟨t, List.mem_singleton_self t, by simp [List.intercalate]⟩
  | cons t2 ts2 ih =>
    intro t h
    have hI : List.intercalate [' '] (t :: t2 :: ts2) =
        t ++ ([' '] ++ List.intercalate [' '] (t2 :: ts2)) := by
      simp [List.intercalate, List.intersperse]
    obtain ⟨u, hu, he⟩ := ih t2 (fun v hv => h v (List.mem_cons_of_mem _ hv))
    refine ⟨u, List.mem_cons_of_mem _ hu, ?_⟩
    rw [hI, List.getLast?_append_of_ne_nil _ (by simp),
      List.getLast?_append_of_ne_nil _
        (intercalate_ne_nil t2 ts2 (h t2 (List.mem_cons_of_mem _ (List.mem_cons_self _ _)))),
      he]

theorem mem_intercalate_no_newline (ts : List (List Char))
    (h : ∀ t ∈ ts, ∀ ch ∈ t, ¬ jsIsWs ch) :
    ∀ ch ∈ List.intercalate [' '] ts, ch ≠ '\n' := by
  induction ts with
  | nil =>
    intro ch hch
    simp [List.intercalate] at hch
  | cons t ts ih =>
    cases ts with
    | nil =>
      intro ch hch he
      subst he
      rw [show List.intercalate [' '] [t] = t by simp [List.intercalate]] at hch
      exact h t (List.mem_singleton_self _) '\n' hch (by decide)
    | cons t2 ts2 =>
      intro ch hch
      rw [show List.intercalate [' '] (t :: t2 :: ts2) =
          t ++ ([' '] ++ List.intercalate [' '] (t2 :: ts2)) by
          simp [List.intercalate, List.intersperse]] at hch
      rcases List.mem_append.mp hch with h0 | h0
      · intro he
        subst he
        exact h t (List.mem_cons_self _ _) '\n' h0 (by decide)
      · rcases List.mem_append.mp h0 with h1 | h1
        · simp at h1
          subst h1
          decide
        · exact ih (fun u hu => h u (List.mem_cons_of_mem _ hu)) ch h1

theorem splitWsL_intercalate (ts : List (List Char)) :
    ts ≠ [] → (∀ t ∈ ts, t ≠ []) → (∀ t ∈ ts, ∀ ch ∈ t, ¬ jsIsWs ch) →
    splitWsL (List.intercalate [' '] ts) = ts := by
  induction ts with
  | nil => intro h _ _; exact absurd rfl h
  | cons t ts ih =>
    intro _ hne hws
    cases ts with
    | nil =>
      rw [show List.intercalate [' '] [t] = t by simp [List.intercalate]]
      have e := splitWsGo_append_token t [] [] (hws t (List.mem_singleton_self t))
      rw [List.append_nil] at e
      unfold splitWsL
      rw [e]
      simp [splitWsGo]
    | cons t2 ts2 =>
      rw [show List.intercalate [' '] (t :: t2 :: ts2) =
          t ++ ([' '] ++ List.intercalate [' '] (t2 :: ts2)) by
          simp [List.intercalate, List.intersperse]]
      unfold splitWsL
      rw [splitWsGo_append_token t _ [] (hws t (List.mem_cons_self _ _))]
      rw [List.singleton_append]
      rw [splitWsGo_cons_ws_false ' ' _ _ (by decide)]
      have hhead : ∀ c, (List.intercalate [' '] (t2 :: ts2)).head? = some c → ¬ jsIsWs c := by
        intro c hc
        rw [head?_intercalate_cons t2 ts2
          (hne t2 (List.mem_cons_of_mem _ (List.mem_cons_self _ _)))] at hc
        exact hws t2 (List.mem_cons_of_mem _ (List.mem_cons_self _ _)) c
          (List.mem_of_mem_head? hc)
      rw [splitWsGo_true_eq_false _ hhead]
      rw [show splitWsGo (List.intercalate [' '] (t2 :: ts2)) [] false =
          splitWsL (List.intercalate [' '] (t2 :: ts2)) from rfl]
      rw [ih (List.cons_ne_nil t2 ts2) (fun u hu => hne u (List.mem_cons_of_mem _ hu))
        (fun u hu => hws u (List.mem_cons_of_mem _ hu))]
      simp

theorem pipe_tail_parts (x : List Char) :
    jsTrimL (capWordsL (jsTrimL (firstLineL x))) = capWordsL (jsTrimL (firstLineL x)) ∧
    firstLineL (capWordsL (jsTrimL (firstLineL x))) = capWordsL (jsTrimL (firstLineL x)) ∧
    capWordsL (capWordsL (jsTrimL (firstLineL x))) = capWordsL (jsTrimL (firstLineL x)) := by
  set m := jsTrimL (firstLineL x) with hm
  have hmnl : ∀ c ∈ m, c ≠ '\n' := fun c hc =>
    firstLineL_no_newline x c (mem_of_mem_jsTrimL _ c hc)
  have hmh : ∀ c, m.head? = some c → ¬ jsIsWs c := jsTrimL_head_not_ws (firstLineL x)
  have hml : ∀ c, m.getLast? = some c → ¬ jsIsWs c := jsTrimL_getLast_not_ws (firstLineL x)
  by_cases hlen : (splitWsL m).length > 6
  · have hmne : m ≠ [] := by
      intro h0
      rw [h0] at hlen
      simp [splitWsL, splitWsGo] at hlen
    set ts := (splitWsL m).take 6 with hts
    have hts6 : ts.length = 6 := by
      rw [hts, List.length_take]
      omega
    have hcap : capWordsL m = List.intercalate [' '] ts := by
      unfold capWordsL
      dsimp only
      rw [if_pos hlen]
    have htsne : ts ≠ [] := by
      intro h0
      rw [h0] at hts6
      simp at hts6
    have htokne : ∀ t ∈ ts, t ≠ [] := by
      intro t ht
      exact splitWsGo_tokens_ne_nil m [] false hml (fun h0 => absurd h0 hmne)
        (fun _ _ => hmh) t (List.mem_of_mem_take ht)
    have htokws : ∀ t ∈ ts, ∀ ch ∈ t, ¬ jsIsWs ch := by
      intro t ht
      exact splitWsGo_tokens_not_ws m [] false
        (fun ch hch => absurd hch (List.not_mem_nil ch)) t (List.mem_of_mem_take ht)
    have hsplit : splitWsL (List.intercalate [' '] ts) = ts :=
      splitWsL_intercalate ts htsne htokne htokws
    have hcap2 : capWordsL (List.intercalate [' '] ts) = List.intercalate [' '] ts := by
      unfold capWordsL
      dsimp only
      rw [hsplit, if_neg (by omega)]
    have hh : ∀ c, (List.intercalate [' '] ts).head? = some c → ¬ jsIsWs c := by
      cases hts0 : ts with
      | nil => exact absurd hts0 htsne
      | cons t1 ts1 =>
        intro c hc
        have ht1 : t1 ∈ ts := by rw [hts0]; exact List.mem_cons_self _ _
        rw [head?_intercalate_cons t1 ts1 (htokne t1 ht1)] at hc
        exact htokws t1 ht1 c (List.mem_of_mem_head? hc)
    have hlast : ∀ c, (List.intercalate [' '] ts).getLast? = some c → ¬ jsIsWs c := by
      cases hts0 : ts with
      | nil => exact absurd hts0 htsne
      | cons t1 ts1 =>
        intro c hc
        obtain ⟨u, hu, he⟩ := getLast?_intercalate_cons ts1 t1
          (fun v hv => htokne v (by rw [hts0]; exact hv))
        rw [he] at hc
        exact htokws u (by rw [hts0]; exact hu) c (List.mem_of_mem_getLast? hc)
    have htrim : jsTrimL (List.intercalate [' '] ts) = List.intercalate [' '] ts :=
      jsTrimL_eq_self _ hh hlast
    have hfl : firstLineL (List.intercalate [' '] ts) = List.intercalate [' '] ts :=
      firstLineL_eq_self _ (mem_intercalate_no_newline ts htokws)
    rw [hcap]
    exact ⟨htrim, hfl, hcap2⟩
  · have hcap : capWordsL m = m := by
      unfold capWordsL
      dsimp only
      rw [if_neg hlen]
    rw [hcap]
    exact ⟨jsTrimL_eq_self m hmh hml, firstLineL_eq_self m hmnl, hcap⟩

theorem cleanTitleL_parts (cs : List Char) :
    jsTrimL (cleanTitleL cs) = cleanTitleL cs ∧
    firstLineL (cleanTitleL cs) = cleanTitleL cs ∧
    capWordsL (cleanTitleL cs) = cleanTitleL cs :=
  pipe_tail_parts (stripQuotesL (stripTitleLabelL (stripQuotesL (stripThinkL (jsTrimL cs)))))

theorem cleanTitleL_idem_of_fixed (l : List Char)
    (hthink : stripThinkL (cleanTitleL l) = cleanTitleL l)
    (hquote : stripQuotesL (cleanTitleL l) = cleanTitleL l)
    (hlabel : stripTitleLabelL (cleanTitleL l) = cleanTitleL l) :
    cleanTitleL (cleanTitleL l) = cleanTitleL l := by
  obtain ⟨htrim, hfl, hcap⟩ := cleanTitleL_parts l
  show capWordsL (jsTrimL (firstLineL (stripQuotesL (stripTitleLabelL (stripQuotesL
      (stripThinkL (jsTrimL (cleanTitleL l)))))))) = cleanTitleL l
  rw [htrim, hthink, hquote, hlabel, hquote, hfl, htrim, hcap]

set_option maxHeartbeats 1000000 in
/-- C6 (amended): the tail of the title-cleaning pipeline (first line,
trim, six-word cap) is idempotent on every output, so the pipeline is
idempotent on exactly those outputs that the three stripping stages no
longer change: for every string s whose cleaned form is fixed by the
think-tag strip, the quote strip and the Title-label strip, cleaning
twice equals cleaning once.  The unamended claim — idempotence on the
whole image of the pipeline — is false, because the quote strip removes
at most one leading quote per pass, so an image string may still carry
a strippable quote (see the counterexample). -/
theorem cleanTitle_idempotent_of_strip_fixed (s : String)
    (hthink : stripThinkL (cleanTitle s).toList = (cleanTitle s).toList)
    (hquote : stripQuotesL (cleanTitle s).toList = (cleanTitle s).toList)
    (hlabel : stripTitleLabelL (cleanTitle s).toList = (cleanTitle s).toList) :
    cleanTitle (cleanTitle s) = cleanTitle s := by
  simp only [cleanTitle] at hthink hquote hlabel ⊢
  have htl : (String.mk (cleanTitleL s.toList)).toList = cleanTitleL s.toList := rfl
  rw [htl] at hthink hquote hlabel ⊢
  exact congrArg String.mk (cleanTitleL_idem_of_fixed s.toList hthink hquote hlabel)

theorem cleanTitle_idempotent_of_strip_fixed_witness :
    (stripThinkL (cleanTitle "Weather Chat").toList = (cleanTitle "Weather Chat").toList) ∧
    (stripQuotesL (cleanTitle "Weather Chat").toList = (cleanTitle "Weather Chat").toList) ∧
    (stripTitleLabelL (cleanTitle "Weather Chat").toList = (cleanTitle "Weather Chat").toList) ∧
    cleanTitle (cleanTitle "Weather Chat") = cleanTitle "Weather Chat" :=
  ⟨by decide, by decide, by decide,
   cleanTitle_idempotent_of_strip_fixed "Weather Chat" (by decide) (by decide) (by decide)⟩

/-- C6 counterexample: the string `"hello` (one leading double quote) is in
the pipeline's image — it is the cleaned form of `"""hello`, since each
pass of the quote-strip stage removes at most one leading quote and the
pipeline runs that stage twice — yet cleaning it again strips the
remaining quote and yields `hello`, so the pipeline is not idempotent on
its image. -/
theorem cleanTitle_not_idempotent_on_image :
    cleanTitle "\"\"\"hello" = "\"hello" ∧
    cleanTitle (cleanTitle "\"\"\"hello") = "hello" ∧
    cleanTitle (cleanTitle "\"\"\"hello") ≠ cleanTitle "\"\"\"hello" :=
  ⟨by decide, by decide, by decide⟩
